import Mathlib

/-!
Verification of the job orchestration engine of the Wget-manager server.

The engine under study is the Express server revision in `src/unnamed/part_001`
(job table `activeDownloads`, FIFO `downloadQueue`, `processQueue`,
`startDownload`, the `close` handler with its retry policy, `/cancel`,
`/cancel-all`, `loadState`), together with the aria2c argument construction of
the older revision `src/server.js` (`launch`) and the `/transfer` artifact
route.  JavaScript maps are embedded as insertion-ordered association lists,
the asynchronous completions (worker exit, retry timer) as events of a guarded
step relation, and `new Date()` timestamps as a logical clock.
-/

namespace WgetVerify

/-- `headMatch pat hay` is true when `pat` occurs at the start of `hay`
(character-for-character), the building block of JavaScript `String.includes`
and `String.startsWith`. -/
def headMatch : List Char → List Char → Bool
  | [], _ => true
  | _ :: _, [] => false
  | p :: ps, h :: hs => p == h && headMatch ps hs

/-- `hasSub hay pat` is JavaScript `hay.includes(pat)`: `pat` occurs
contiguously somewhere in `hay`. -/
def hasSub : List Char → List Char → Bool
  | [], pat => headMatch pat []
  | c :: t, pat => headMatch pat (c :: t) || hasSub t pat

/-- `strHas hay pat` is JavaScript `hay.includes(pat)` on strings. -/
def strHas (hay pat : String) : Bool := hasSub hay.data pat.data

/-- Job lifecycle states (spec §3, used verbatim as strings in the source). -/
inductive Status
  | queued | downloading | retrying | completed | error | cancelled | interrupted
deriving DecidableEq

/-- The per-job request parameters captured at submission
(`downloadConfig`, part_001 lines 954-956).  Fields that only shape worker
argv text (referer, ua, cookies, noCheckCert) are omitted; the fields that
feed the engine's control flow are kept. -/
structure Config where
  url : String
  filename : String
  singleSegment : Bool := false
  forceVideo : Bool := false
  connections : Option Int := none
  formatCode : Option String := none
deriving DecidableEq

/-- The job record `downloadInfo` (part_001 lines 941-952) plus the fields the
close handler adds (`completedAt`, `error`, `sizeBytes`).  Timestamps are
values of the logical clock. -/
structure Info where
  id : String
  url : String
  filename : String
  status : Status
  progress : Nat
  speed : String
  eta : String
  currentSize : String
  fullSize : String
  startedAt : Option Nat := none
  completedAt : Option Nat := none
  error : Option String := none
  sizeBytes : Option Nat := none
deriving DecidableEq

/-- One entry of the `activeDownloads` map:
`{ info, config, process, retryCount }`.  `config` is `none` for entries
restored by `loadState`, which stores no config (part_001 line 173);
`hasProc` models whether `process` is non-null. -/
structure Download where
  info : Info
  config : Option Config
  hasProc : Bool
  retryCount : Nat
deriving DecidableEq

/-- One SSE `broadcast(data)` call: its `type` tag and the job snapshot. -/
structure BMsg where
  btype : String
  dl : Info
deriving DecidableEq

/-- Engine configuration: `MAX_CONCURRENT_DOWNLOADS`, `RETRY_ATTEMPTS` and the
`rules.json` table (folder, extension list) in `Object.entries` order. -/
structure Params where
  maxConcurrent : Nat
  retryAttempts : Nat
  rules : List (String × List String) := []
deriving DecidableEq

/-- The engine's mutable state.  `active` is the `activeDownloads` map as an
insertion-ordered association list, `queue` is `downloadQueue`, `history` is
`historyList`, `pendingRetries` holds the job ids with an armed retry timer.
`broadcasts`, `spawned`, `submitted` are observation traces: every
`broadcast(...)` call, every worker `spawn`, every accepted `/download`
submission, in order.  `everIds` is the ledger of all ids ever handed out
(uuidv4 freshness); `crashed` records that an uncaught `ReferenceError`
escaped (the unbound `connections` at part_001 line 675), which under default
Node semantics terminates the process. -/
structure EngineState where
  active : List (String × Download)
  queue : List String
  pendingRetries : List String
  history : List Info
  broadcasts : List BMsg
  spawned : List String
  submitted : List String
  everIds : List String
  time : Nat
  crashed : Bool
deriving DecidableEq

def initState : EngineState :=
  { active := [], queue := [], pendingRetries := [], history := [], broadcasts := []
    spawned := [], submitted := [], everIds := [], time := 0, crashed := false }

/-- JavaScript `Map.get`: the value at the first (unique) matching key. -/
def mapGet {α : Type} : List (String × α) → String → Option α
  | [], _ => none
  | (k', v) :: rest, k => if k' = k then some v else mapGet rest k

/-- JavaScript `Map.set`: replace in place if present, append otherwise. -/
def mapSet {α : Type} : List (String × α) → String → α → List (String × α)
  | [], k, v => [(k, v)]
  | (k', v') :: rest, k, v =>
      if k' = k then (k, v) :: rest else (k', v') :: mapSet rest k v

/-- JavaScript `Map.delete`: drop the (unique) matching entry. -/
def mapDel {α : Type} : List (String × α) → String → List (String × α)
  | [], _ => []
  | (k', v) :: rest, k => if k' = k then mapDel rest k else (k', v) :: mapDel rest k

def activeKeys (s : EngineState) : List String := s.active.map (·.1)

def statusOf (s : EngineState) (id : String) : Option Status :=
  (mapGet s.active id).map (fun dl => dl.info.status)

/-- The filter of `processQueue` (part_001 lines 129-131): a job counts
against the concurrency limit while `downloading` or `retrying`. -/
def isRunning (dl : Download) : Bool :=
  dl.info.status == Status.downloading || dl.info.status == Status.retrying

/-- The number of entries of the table that pass the `isRunning` filter
(`filter(...).length` of part_001 lines 129-131). -/
def countRunning : List (String × Download) → Nat
  | [] => 0
  | p :: rest => (if isRunning p.2 then 1 else 0) + countRunning rest

/-- `runningCount` of part_001 lines 129-131. -/
def runningCount (s : EngineState) : Nat := countRunning s.active

def spawnCount (s : EngineState) (id : String) : Nat := s.spawned.count id

/-- part_001 lines 331-344 (the second, shadowing declaration of
`isVideoPlatform`): substring match against the platform markers. -/
def isVideoPlatform (url : String) : Bool :=
  ["youtube.com/watch", "youtu.be/", "twitch.tv/", "vimeo.com/",
   "dailymotion.com/video", "facebook.com/watch", "instagram.com/p/",
   "tiktok.com/", "googlevideo.com"].any (fun p => strHas url p)

/-- The stream test `url.match(/\.(m3u8|mpd)/i)` (part_001 line 651). -/
def isStreamUrl (url : String) : Bool :=
  hasSub url.toLower.data ".m3u8".data || hasSub url.toLower.data ".mpd".data

/-- `url.startsWith("magnet:")` (part_001 line 604). -/
def isMagnet (url : String) : Bool := headMatch "magnet:".data url.data

/-- The transient-failure signature of the close handler
(part_001 lines 791-797): error text containing "503", "Connection",
"timeout" or "SSL", or exit code 3 or 7.  `code` is `none` for a process that
exited on a signal (JavaScript `null`). -/
def transientSig (lastError : String) (code : Option Int) : Bool :=
  strHas lastError "503" || strHas lastError "Connection" ||
  strHas lastError "timeout" || strHas lastError "SSL" ||
  (match code with | some 3 => true | some 7 => true | _ => false)

/-- The terminal error message (part_001 lines 810-815): first stderr line
containing "error"/"failed" (case-insensitively), truncated to 200
characters, else a synthetic `Échec (code N)`. -/
def errMsg (lastError : String) (code : Option Int) : String :=
  let ls := (lastError.splitOn "\n").filter
    (fun l => strHas l.toLower "error" || strHas l.toLower "failed")
  match ls with
  | [] => "Échec (code " ++ (match code with | some n => toString n | none => "null") ++ ")"
  | l :: _ => l.take 200

/-- `path.extname(name).substring(1)` (part_001 line 750): the suffix after
the last dot, empty when there is no dot or the only dot is leading. -/
def extOf (name : String) : String :=
  let cs := name.data
  let pre := cs.reverse.takeWhile (fun c => c ≠ '.')
  if pre.length = cs.length then ""
  else if pre.length + 1 = cs.length then ""
  else String.mk pre.reverse

/-- The first `rules.json` entry whose extension list contains `ext`
(part_001 lines 754-759). -/
def routeFolder (rules : List (String × List String)) (ext : String) : Option String :=
  (rules.find? (fun r => r.2.contains ext)).map (·.1)

/-- The condition under which `startDownload` reaches one of its two spawning
branches (yt-dlp for video, ffmpeg for adaptive streams) rather than the
aria2c branch: `(isVideo && !isTorrent) || (isStream && !isTorrent)`. -/
def launches (cfg : Config) : Bool :=
  ((cfg.forceVideo || isVideoPlatform cfg.url) && !isMagnet cfg.url) ||
  (isStreamUrl cfg.url && !isMagnet cfg.url)

/-- The job record as `startDownload` rewrites it before choosing a backend
branch: status `downloading`, `startedAt` stamped (part_001 lines 606-607). -/
def startedInfo (dl : Download) (t : Nat) : Info :=
  { dl.info with status := Status.downloading, startedAt := some t }

/-- `startDownload(id)` (part_001 lines 597-730), up to handing the worker
its handlers.  Missing id: silent return (line 598-599).  Missing config
(a snapshot-restored entry): destructuring `undefined` throws, modelled by
`crashed`.  Lines 606-608 set `downloading`/`startedAt` and broadcast
before the backend branch; the yt-dlp and ffmpeg branches then spawn a
worker; the aria2c branch evaluates the identifier `connections`
(line 675), which is not declared in `startDownload`'s scope (it is a local
of the `/download` handler only), raising `ReferenceError` before `spawn` —
modelled by `crashed` with the earlier mutations retained. -/
def startDownload (s : EngineState) (id : String) : EngineState :=
  match mapGet s.active id with
  | none => s
  | some dl =>
    match dl.config with
    | none => { s with crashed := true }
    | some cfg =>
      let isVideo := cfg.forceVideo || isVideoPlatform cfg.url
      let isTorrent := isMagnet cfg.url
      let info1 := { dl.info with status := Status.downloading, startedAt := some s.time }
      let s1 := { s with time := s.time + 1,
                         active := mapSet s.active id { dl with info := info1 },
                         broadcasts := s.broadcasts ++ [({ btype := "status-change", dl := info1 } : BMsg)] }
      if isVideo && !isTorrent then
        { s1 with active := mapSet s1.active id { dl with info := info1, hasProc := true },
                  spawned := s1.spawned ++ [id] }
      else if isStreamUrl cfg.url && !isTorrent then
        { s1 with active := mapSet s1.active id { dl with info := info1, hasProc := true },
                  spawned := s1.spawned ++ [id] }
      else
        { s1 with crashed := true }

/-- `processQueue()` (part_001 lines 128-140): while the running count is
strictly below `MAX_CONCURRENT_DOWNLOADS` and the queue is non-empty, shift
the queue head and start it.  The recursion consumes one queue element per
round, so the queue length is an exact fuel; an escaping `ReferenceError`
aborts the loop. -/
def processQueueAux (P : Params) : Nat → EngineState → EngineState
  | 0, s => s
  | n + 1, s =>
    match s.queue with
    | [] => s
    | nextId :: rest =>
      if runningCount s < P.maxConcurrent then
        let s1 := startDownload { s with queue := rest } nextId
        if s1.crashed then s1 else processQueueAux P n s1
      else s

def processQueue (P : Params) (s : EngineState) : EngineState :=
  processQueueAux P s.queue.length s

/-- The accepted-submission tail of `app.post("/download")`
(part_001 lines 930-968): create the record in `queued` status, `Map.set`
it, push the id on the queue tail, broadcast, then `processQueue()`.
`submitted`/`everIds` are the ghost traces of the fresh uuid.
`newInfo` is the created record `downloadInfo` (part_001 lines 941-952). -/
def newInfo (id : String) (cfg : Config) : Info :=
  { id := id, url := cfg.url, filename := cfg.filename, status := Status.queued,
    progress := 0, speed := "0 KB/s", eta := "--", currentSize := "0 B",
    fullSize := "???", startedAt := none, completedAt := none, error := none,
    sizeBytes := none }

def submitStep (P : Params) (s : EngineState) (id : String) (cfg : Config) : EngineState :=
  let info : Info := newInfo id cfg
  let s1 := { s with
    active := mapSet s.active id { info := info, config := some cfg, hasProc := false, retryCount := 0 },
    queue := s.queue ++ [id],
    submitted := s.submitted ++ [id],
    everIds := s.everIds ++ [id],
    broadcasts := s.broadcasts ++ [({ btype := "update", dl := info } : BMsg)] }
  processQueue P s1

/-- The `proc.on("close")` handler (part_001 lines 732-826).  `szb` is the
result of `fs.stat` on the artifact (`none` = stat failed), `renameOk`
whether the routing `fs.rename` succeeded.  Exit code 0: mark completed,
progress 100, `completedAt`, measure and route the artifact, append to
history, delete from the table, broadcast, `processQueue()`.  Non-zero:
retry when `retryCount < RETRY_ATTEMPTS` and the transient signature
matches (increment `retryCount`, status `retrying`, broadcast, arm the
timer); otherwise status `error` with the extracted message, broadcast,
delete — with no `processQueue()` call in this branch. -/
def closeStep (P : Params) (s : EngineState) (id : String) (code : Option Int)
    (lastError : String) (szb : Option Nat) (renameOk : Bool) : EngineState :=
  match mapGet s.active id with
  | none => s
  | some dl =>
    match dl.config with
    | none => s
    | some cfg =>
      if code = some 0 then
        let isVideo := cfg.forceVideo || isVideoPlatform cfg.url
        let isTorrent := isMagnet cfg.url
        let finalFilename := cfg.filename ++ (if isVideo && !isTorrent then ".mp4" else "")
        let info1 := { dl.info with
          status := Status.completed, progress := 100, completedAt := some s.time,
          fullSize := (match szb with | some n => toString n ++ " B" | none => dl.info.fullSize),
          sizeBytes := (match szb with | some n => some n | none => dl.info.sizeBytes) }
        let newName := match routeFolder P.rules (extOf finalFilename) with
          | some folder => if renameOk then folder ++ "/" ++ finalFilename else finalFilename
          | none => finalFilename
        let info2 := { info1 with filename := newName }
        let s2 := { s with time := s.time + 1,
                           history := s.history ++ [info2],
                           active := mapDel s.active id,
                           broadcasts := s.broadcasts ++ [({ btype := "status-change", dl := info2 } : BMsg)] }
        processQueue P s2
      else
        if dl.retryCount < P.retryAttempts && transientSig lastError code then
          let info1 := { dl.info with status := Status.retrying }
          { s with active := mapSet s.active id
                     { dl with info := info1, retryCount := dl.retryCount + 1 },
                   broadcasts := s.broadcasts ++ [({ btype := "update", dl := info1 } : BMsg)],
                   pendingRetries := s.pendingRetries ++ [id] }
        else
          let info1 := { dl.info with status := Status.error,
                                      error := some (errMsg lastError code) }
          { s with active := mapDel s.active id,
                   broadcasts := s.broadcasts ++ [({ btype := "status-change", dl := info1 } : BMsg)] }

/-- The `proc.on("error")` handler (part_001 lines 828-835): launch failure
is terminal, broadcast, delete, `processQueue()`. -/
def procErrStep (P : Params) (s : EngineState) (id : String) (msg : String) : EngineState :=
  match mapGet s.active id with
  | none => s
  | some dl =>
    let info1 := { dl.info with status := Status.error, error := some msg }
    let s2 := { s with active := mapDel s.active id,
                       broadcasts := s.broadcasts ++ [({ btype := "status-change", dl := info1 } : BMsg)] }
    processQueue P s2

/-- The retry timer firing (part_001 line 805): `startDownload(id)` again,
bypassing the queue. -/
def retryFireStep (s : EngineState) (id : String) : EngineState :=
  startDownload { s with pendingRetries := s.pendingRetries.erase id } id

/-- Responses of `app.post("/cancel")`. -/
inductive CancelRes
  | badRequest   -- 400, "ID manquant"
  | notFound     -- 404, "Téléchargement introuvable"
  | ok           -- 200, success
deriving DecidableEq

/-- `app.post("/cancel")` (part_001 lines 385-429): missing id → 400 with no
mutation; unknown id → 404 with no mutation; otherwise kill the worker if
any, mark `cancelled`, broadcast, delete from the table.  No
`processQueue()` call on any path. -/
def cancelStep (s : EngineState) (body : Option String) : CancelRes × EngineState :=
  match body with
  | none => (CancelRes.badRequest, s)
  | some id =>
    match mapGet s.active id with
    | none => (CancelRes.notFound, s)
    | some dl =>
      let info1 := { dl.info with status := Status.cancelled }
      (CancelRes.ok,
        { s with active := mapDel s.active id,
                 broadcasts := s.broadcasts ++ [({ btype := "status-change", dl := info1 } : BMsg)] })

/-- `app.post("/cancel-all")` (part_001 lines 431-453): for every entry of
the table, kill the worker if any, mark `cancelled`, broadcast, count; then
clear the table.  `downloadQueue` is left untouched.  Returns the count. -/
def cancelAllStep (s : EngineState) : Nat × EngineState :=
  let infos := s.active.map (fun p => { p.2.info with status := Status.cancelled })
  (s.active.length,
    { s with active := [],
             broadcasts := s.broadcasts ++ infos.map (fun i => (⟨"status-change", i⟩ : BMsg)) })

/-- The snapshot-restore rewrite of `loadState` (part_001 lines 166-174):
a job loaded `downloading` or `retrying` becomes `interrupted` with the
synthetic error `Arrêt du serveur`; every other status is kept. -/
def restoreInfo (info : Info) : Info :=
  if info.status = Status.downloading ∨ info.status = Status.retrying then
    { info with status := Status.interrupted, error := some "Arrêt du serveur",
                speed := "0 KB/s", eta := "--" }
  else info

/-- One record of the snapshot restored into the table with `process: null`,
`retryCount: 0` and no config (part_001 line 173). -/
def loadOne (s : EngineState) (info : Info) : EngineState :=
  let i := restoreInfo info
  { s with active := mapSet s.active i.id ⟨i, none, false, 0⟩,
           everIds := s.everIds ++ [i.id] }

/-- `loadState()` on a parsed snapshot: each record is restored in order; the
queue, the retry timers and the spawn trace start empty. -/
def loadStateFn (data : List Info) : EngineState :=
  data.foldl loadOne initState

/-- The asynchronous events the single-threaded engine interleaves. -/
inductive Ev
  | submit (id : String) (cfg : Config)
  | close (id : String) (code : Option Int) (lastError : String)
          (szb : Option Nat) (renameOk : Bool)
  | procErr (id : String) (msg : String)
  | retryFire (id : String)
  | cancel (body : Option String)
  | cancelAll
  | progressTick (id : String) (p : Nat) (size spd eta : Option String)

/-- The accepted-match progress overwrite of the yt-dlp stdout handler
(part_001 lines 641-647): clamp the percentage, overwrite only the captured
fields, broadcast an update. -/
def progressStep (s : EngineState) (id : String) (p : Nat)
    (size spd eta : Option String) : EngineState :=
  match mapGet s.active id with
  | none => s
  | some dl =>
    let info1 := { dl.info with
      progress := min 100 p,
      fullSize := size.getD dl.info.fullSize,
      speed := spd.getD dl.info.speed,
      eta := eta.getD dl.info.eta }
    { s with active := mapSet s.active id { dl with info := info1 },
             broadcasts := s.broadcasts ++ [({ btype := "update", dl := info1 } : BMsg)] }

def stepFn (P : Params) (s : EngineState) : Ev → EngineState
  | Ev.submit id cfg => submitStep P s id cfg
  | Ev.close id code lastError szb renameOk => closeStep P s id code lastError szb renameOk
  | Ev.procErr id msg => procErrStep P s id msg
  | Ev.retryFire id => retryFireStep s id
  | Ev.cancel body => (cancelStep s body).2
  | Ev.cancelAll => (cancelAllStep s).2
  | Ev.progressTick id p size spd eta => progressStep s id p size spd eta

/-- When an event can fire: nothing after a process crash; a submission
carries a fresh uuid; a worker exit or launch error needs a live worker of a
`downloading` job; a retry timer must be armed. -/
def enabledB (s : EngineState) : Ev → Bool
  | Ev.submit id _ => !s.crashed && !(decide (id ∈ s.everIds))
  | Ev.close id _ _ _ _ =>
      !s.crashed && (match mapGet s.active id with
        | some dl => dl.hasProc && dl.info.status == Status.downloading
        | none => false)
  | Ev.procErr id _ =>
      !s.crashed && (match mapGet s.active id with
        | some dl => dl.hasProc && dl.info.status == Status.downloading
        | none => false)
  | Ev.retryFire id => !s.crashed && decide (id ∈ s.pendingRetries)
  | Ev.cancel _ => !s.crashed
  | Ev.cancelAll => !s.crashed
  | Ev.progressTick id _ _ _ _ =>
      !s.crashed && (match mapGet s.active id with
        | some dl => dl.hasProc && dl.info.status == Status.downloading
        | none => false)

/-- Guarded reachability: `Reach P s t` when `t` arises from `s` by a
sequence of enabled events. -/
inductive Reach (P : Params) : EngineState → EngineState → Prop
  | refl (s : EngineState) : Reach P s s
  | tail {s t : EngineState} (e : Ev) (h : Reach P s t) (he : enabledB t e = true) :
      Reach P s (stepFn P t e)

/-! ### The aria2c argument construction of the two revisions (C9) -/

/-- `isYouTube` of server.js line 394. -/
def launchIsYouTube (url : String) : Bool :=
  strHas url "googlevideo.com" || strHas url "youtube.com"

/-- server.js lines 515-519: the aria2c parallelism pair
`(max-connection-per-server, split)` chosen by `launch`. -/
def launchAria2Parallel (isYouTube isRetry singleSegment : Bool) : Nat × Nat :=
  if isYouTube || isRetry || singleSegment then (1, 1) else (16, 16)

/-- part_001 line 675:
`Math.max(1, Math.min(parseInt(connections) || (isTorrent ? 4 : 16), 16))`.
The identifier `connections` is not declared in `startDownload`'s scope, so
evaluating this line actually raises `ReferenceError`; this definition takes
the value that identifier would have to denote as a parameter (`none` for
`undefined`/`NaN`, whose `parseInt` is falsy, like an explicit 0). -/
def part001AriaConns (connections : Option Int) (isTorrent : Bool) : Int :=
  max 1 (min (match connections with
              | some n => if n = 0 then (if isTorrent then 4 else 16) else n
              | none => if isTorrent then 4 else 16) 16)

/-! ### The `/transfer` artifact route (C8) -/

inductive TransferOutcome
  | delivered   -- res.download streamed the file
  | notFound    -- 404 "Fichier introuvable"
deriving DecidableEq

/-- `app.get(/^\/transfer\/(.+)/)` (part_001 lines 361-383) acting on the
contents of the downloads directory, embedded as the list of stored relative
paths (an artifact's sanitized filename contains no `..`, so the traversal
guard is the identity on it).  A missing path is a 404; an existing path is
streamed and, when delivery completed without error (`deliverOk`), unlinked. -/
def transferStep (files : List String) (relPath : String) (deliverOk : Bool) :
    TransferOutcome × List String :=
  if relPath ∈ files then
    (TransferOutcome.delivered, if deliverOk then files.erase relPath else files)
  else (TransferOutcome.notFound, files)

/-! ### First-occurrence subsequence (for the FIFO start order) -/

/-- The first occurrences of a list's elements, in order: the order in which
jobs were started for the first time, extracted from the spawn trace. -/
def firsts : List String → List String
  | [] => []
  | a :: l => a :: (firsts l).filter (fun x => ¬(x = a))

/-- A job id the engine will never hand to a worker: it sits in no queue, has
no armed retry timer, has never been spawned, is burned in the uuid ledger
(so it cannot be resubmitted), and its table entry — if any — is not in a
running state. -/
def NeverRun (s : EngineState) (id : String) : Prop :=
  id ∉ s.queue ∧ id ∉ s.pendingRetries ∧ id ∉ s.spawned ∧ id ∈ s.everIds ∧
  statusOf s id ≠ some Status.downloading ∧ statusOf s id ≠ some Status.retrying

/-- The inductive invariant of the engine.  Beyond the concurrency bound
itself it records the supporting facts: queue members are still `queued`
(or already gone), armed retry timers belong to `retrying` jobs (or gone),
queue and timer lists are duplicate-free and drawn from the uuid ledger,
the submission trace splits into the already-popped prefix (which the
first-start order follows) and the current queue, queue members have never
been spawned, and every running job has a spawned worker. -/
structure EngInv (P : Params) (s : EngineState) : Prop where
  countLe : runningCount s ≤ P.maxConcurrent
  queueStatus : ∀ id, id ∈ s.queue →
    statusOf s id = some Status.queued ∨ statusOf s id = none
  pendStatus : ∀ id, id ∈ s.pendingRetries →
    statusOf s id = some Status.retrying ∨ statusOf s id = none
  queueNodup : s.queue.Nodup
  pendNodup : s.pendingRetries.Nodup
  queueEver : ∀ id, id ∈ s.queue → id ∈ s.everIds
  pendEver : ∀ id, id ∈ s.pendingRetries → id ∈ s.everIds
  activeEver : ∀ id, id ∈ s.active.map (·.1) → id ∈ s.everIds
  fifo : ∃ done, s.submitted = done ++ s.queue ∧ List.Sublist (firsts s.spawned) done
  queueUnspawned : ∀ id, id ∈ s.queue → id ∉ s.spawned
  pendSpawned : ∀ id, id ∈ s.pendingRetries → id ∈ s.spawned
  spawnedEver : ∀ id, id ∈ s.spawned → id ∈ s.everIds
  runSpawned : s.crashed = false → ∀ id,
    (statusOf s id = some Status.downloading ∨ statusOf s id = some Status.retrying) →
    id ∈ s.spawned

/-! ## Concrete scenarios

Small closed instances of the engine used by the individual claims:
video-backed jobs (forceVideo, as the extension's manifest captures set it)
so that `startDownload` takes the yt-dlp branch and actually spawns. -/

def c1P : Params := { maxConcurrent := 5, retryAttempts := 2 }
def c1Cfg : Config := { url := "https://host/clip-one", filename := "clip-one", forceVideo := true }
def c1s1 : EngineState := stepFn c1P (loadStateFn []) (Ev.submit "a1" c1Cfg)
def c1s2 : EngineState := stepFn c1P c1s1 (Ev.submit "a2" c1Cfg)

def c2P : Params := { maxConcurrent := 1, retryAttempts := 2 }
def c2CfgA : Config := { url := "https://h/a", filename := "a", forceVideo := true }
def c2CfgB : Config := { url := "https://h/b", filename := "b", forceVideo := true }
def c2sA : EngineState := stepFn c2P (loadStateFn []) (Ev.submit "A" c2CfgA)
def c2sB : EngineState := stepFn c2P c2sA (Ev.submit "B" c2CfgB)
def c2err : EngineState := stepFn c2P c2sB (Ev.close "A" (some 1) "boom" none true)
def c2can : EngineState := stepFn c2P c2sB (Ev.cancel (some "A"))
def c2ok : EngineState := stepFn c2P c2sB (Ev.close "A" (some 0) "" none true)

def c3P : Params := { maxConcurrent := 1, retryAttempts := 2 }
def c3Cfg : Config := { url := "https://h/clip", filename := "clip", forceVideo := true }
def c3s1 : EngineState := stepFn c3P (loadStateFn []) (Ev.submit "J" c3Cfg)
def c3s2 : EngineState := stepFn c3P c3s1 (Ev.close "J" (some 1) "Connection reset by peer" none true)
def c3s3 : EngineState := stepFn c3P c3s2 (Ev.retryFire "J")
def c3s4 : EngineState := stepFn c3P c3s3 (Ev.close "J" (some 1) "timeout while reading" none true)
def c3s5 : EngineState := stepFn c3P c3s4 (Ev.retryFire "J")
def c3s6 : EngineState := stepFn c3P c3s5 (Ev.close "J" (some 1) "SSL handshake failed" none true)

def c3wP : Params := { maxConcurrent := 2, retryAttempts := 3 }
def c3wCfg : Config := { url := "https://h/w", filename := "w", forceVideo := true }
def c3wS : EngineState := stepFn c3wP (loadStateFn []) (Ev.submit "W" c3wCfg)
def c3wDl : Download :=
  { info := { id := "W", url := "https://h/w", filename := "w", status := Status.downloading,
              progress := 0, speed := "0 KB/s", eta := "--", currentSize := "0 B",
              fullSize := "???", startedAt := some 0, completedAt := none, error := none,
              sizeBytes := none },
    config := some c3wCfg, hasProc := true, retryCount := 0 }

def c4P : Params := { maxConcurrent := 5, retryAttempts := 2 }
def c4Info : Info :=
  { id := "r", url := "https://h/r", filename := "r", status := Status.downloading,
    progress := 37, speed := "1 MB/s", eta := "00:10", currentSize := "37 B",
    fullSize := "100 B" }

def c5P : Params := { maxConcurrent := 1, retryAttempts := 2 }
def c5CfgA : Config := { url := "https://h/fa", filename := "fa", forceVideo := true }
def c5CfgB : Config := { url := "https://h/fb", filename := "fb", forceVideo := true }
def c5CfgC : Config := { url := "https://h/fc", filename := "fc", forceVideo := true }
def c5s1 : EngineState := stepFn c5P (loadStateFn []) (Ev.submit "A" c5CfgA)
def c5s2 : EngineState := stepFn c5P c5s1 (Ev.submit "B" c5CfgB)
def c5s3 : EngineState := stepFn c5P c5s2 (Ev.submit "C" c5CfgC)
def c5s4 : EngineState := stepFn c5P c5s3 (Ev.close "A" (some 0) "" none true)
def c5s5 : EngineState := stepFn c5P c5s4 (Ev.close "B" (some 0) "" none true)

def c6P : Params := { maxConcurrent := 2, retryAttempts := 2 }
def c6Cfg : Config := { url := "https://h/v", filename := "v", forceVideo := true }
def c6s : EngineState := stepFn c6P (loadStateFn []) (Ev.submit "X" c6Cfg)
def c6dl : Download :=
  { info := { id := "X", url := "https://h/v", filename := "v", status := Status.downloading,
              progress := 0, speed := "0 KB/s", eta := "--", currentSize := "0 B",
              fullSize := "???", startedAt := some 0, completedAt := none, error := none,
              sizeBytes := none },
    config := some c6Cfg, hasProc := true, retryCount := 0 }

def c7P : Params := { maxConcurrent := 1, retryAttempts := 2 }
def c7CfgA : Config := { url := "https://h/ca", filename := "ca", forceVideo := true }
def c7CfgB : Config := { url := "https://h/cb", filename := "cb", forceVideo := true }
def c7sA : EngineState := stepFn c7P (loadStateFn []) (Ev.submit "A" c7CfgA)
def c7sB : EngineState := stepFn c7P c7sA (Ev.submit "B" c7CfgB)

def c10P : Params := { maxConcurrent := 2, retryAttempts := 2 }
def c10Cfg : Config := { url := "https://h/x", filename := "x", forceVideo := true }
def c10s : EngineState := stepFn c10P (loadStateFn []) (Ev.submit "A" c10Cfg)

/-! ## Lemmas: the association-list map -/

theorem mapGet_mapSet_self {α : Type} (m : List (String × α)) (k : String) (v : α) :
    mapGet (mapSet m k v) k = some v := by
  induction m with
  | nil => simp [mapSet, mapGet]
  | cons p rest ih =>
    obtain ⟨k', v'⟩ := p
    by_cases h : k' = k
    · simp [mapSet, mapGet, h]
    · simp [mapSet, mapGet, h, ih]

theorem mapGet_mapSet_ne {α : Type} (m : List (String × α)) (k k' : String) (v : α)
    (h : k ≠ k') : mapGet (mapSet m k v) k' = mapGet m k' := by
  induction m with
  | nil => simp [mapSet, mapGet, h]
  | cons p rest ih =>
    obtain ⟨a, b⟩ := p
    by_cases ha : a = k
    · subst ha
      simp [mapSet, mapGet, h]
    · simp only [mapSet, if_neg ha]
      by_cases ha' : a = k'
      · simp [mapGet, ha']
      · simp [mapGet, ha', ih]

theorem mapGet_mapDel_self {α : Type} (m : List (String × α)) (k : String) :
    mapGet (mapDel m k) k = none := by
  induction m with
  | nil => simp [mapDel, mapGet]
  | cons p rest ih =>
    obtain ⟨a, b⟩ := p
    by_cases ha : a = k
    · simp [mapDel, ha, ih]
    · simp [mapDel, mapGet, ha, ih]

theorem mapGet_mapDel_ne {α : Type} (m : List (String × α)) (k k' : String)
    (h : k ≠ k') : mapGet (mapDel m k) k' = mapGet m k' := by
  induction m with
  | nil => simp [mapDel]
  | cons p rest ih =>
    obtain ⟨a, b⟩ := p
    by_cases ha : a = k
    · subst ha
      simp [mapDel, mapGet, h, ih]
    · by_cases ha' : a = k'
      · subst ha'
        simp [mapDel, mapGet, ha]
      · simp [mapDel, mapGet, ha, ha', ih]

theorem mapGet_mapDel_cases {α : Type} (m : List (String × α)) (k k' : String) :
    mapGet (mapDel m k) k' = none ∨ mapGet (mapDel m k) k' = mapGet m k' := by
  by_cases h : k = k'
  · subst h
    exact Or.inl (mapGet_mapDel_self m k)
  · exact Or.inr (mapGet_mapDel_ne m k k' h)

theorem mapSet_mapSet {α : Type} (m : List (String × α)) (k : String) (v v' : α) :
    mapSet (mapSet m k v) k v' = mapSet m k v' := by
  induction m with
  | nil => simp [mapSet]
  | cons p rest ih =>
    obtain ⟨a, b⟩ := p
    by_cases ha : a = k
    · simp [mapSet, ha]
    · simp [mapSet, ha, ih]

theorem mem_keys_mapSet {α : Type} (m : List (String × α)) (k : String) (v : α)
    (a : String) : a ∈ (mapSet m k v).map (·.1) ↔ a = k ∨ a ∈ m.map (·.1) := by
  induction m with
  | nil => simp [mapSet]
  | cons p rest ih =>
    obtain ⟨b, c⟩ := p
    by_cases hb : b = k
    · subst hb
      simp [mapSet]
    · simp only [mapSet, if_neg hb, List.map_cons, List.mem_cons, ih]
      tauto

theorem mapGet_some_mem_keys {α : Type} {m : List (String × α)} {k : String} {v : α}
    (h : mapGet m k = some v) : k ∈ m.map (·.1) := by
  induction m with
  | nil => simp [mapGet] at h
  | cons p rest ih =>
    obtain ⟨a, b⟩ := p
    by_cases ha : a = k
    · simp [ha]
    · simp only [mapGet, if_neg ha] at h
      simp [ih h]

theorem mapGet_none_of_not_mem_keys {α : Type} {m : List (String × α)} {k : String}
    (h : k ∉ m.map (·.1)) : mapGet m k = none := by
  induction m with
  | nil => simp [mapGet]
  | cons p rest ih =>
    obtain ⟨a, b⟩ := p
    simp only [List.map_cons, List.mem_cons] at h
    push_neg at h
    simp [mapGet, Ne.symm h.1, ih h.2]

theorem mem_of_mem_mapSet {α : Type} {m : List (String × α)} {k : String} {v : α}
    {p : String × α} (h : p ∈ mapSet m k v) : p ∈ m ∨ p = (k, v) := by
  induction m with
  | nil => simp [mapSet] at h; simp [h]
  | cons q rest ih =>
    obtain ⟨a, b⟩ := q
    by_cases ha : a = k
    · simp only [mapSet, if_pos ha, List.mem_cons] at h
      rcases h with h | h
      · exact Or.inr h
      · exact Or.inl (List.mem_cons_of_mem _ h)
    · simp only [mapSet, if_neg ha, List.mem_cons] at h
      rcases h with h | h
      · exact Or.inl (by simp [h])
      · rcases ih h with h' | h'
        · exact Or.inl (List.mem_cons_of_mem _ h')
        · exact Or.inr h'

/-! ## Lemmas: the running count -/

theorem countRunning_mapSet_le (m : List (String × Download)) (k : String) (v : Download) :
    countRunning (mapSet m k v) ≤ countRunning m + 1 := by
  induction m with
  | nil => simp [mapSet, countRunning]; split <;> simp
  | cons p rest ih =>
    obtain ⟨a, b⟩ := p
    by_cases ha : a = k
    · simp only [mapSet, if_pos ha, countRunning]
      have : (if isRunning v then 1 else 0) ≤ (if isRunning b then 1 else 0) + 1 := by
        split <;> split <;> omega
      omega
    · simp only [mapSet, if_neg ha, countRunning]
      omega

theorem countRunning_mapSet_eq (m : List (String × Download)) (k : String)
    {v : Download} (v' : Download) (hget : mapGet m k = some v)
    (h : isRunning v' = isRunning v) : countRunning (mapSet m k v') = countRunning m := by
  induction m with
  | nil => simp [mapGet] at hget
  | cons p rest ih =>
    obtain ⟨a, b⟩ := p
    by_cases ha : a = k
    · subst ha
      simp [mapGet] at hget
      subst hget
      simp [mapSet, countRunning, h]
    · simp only [mapGet, if_neg ha] at hget
      simp only [mapSet, if_neg ha, countRunning, ih hget]

theorem countRunning_mapSet_not_mem (m : List (String × Download)) (k : String)
    (v : Download) (hget : mapGet m k = none) :
    countRunning (mapSet m k v) = countRunning m + (if isRunning v then 1 else 0) := by
  induction m with
  | nil => simp [mapSet, countRunning]
  | cons p rest ih =>
    obtain ⟨a, b⟩ := p
    by_cases ha : a = k
    · simp [mapGet, ha] at hget
    · simp only [mapGet, if_neg ha] at hget
      simp only [mapSet, if_neg ha, countRunning, ih hget]
      omega

theorem countRunning_mapDel_le (m : List (String × Download)) (k : String) :
    countRunning (mapDel m k) ≤ countRunning m := by
  induction m with
  | nil => simp [mapDel]
  | cons p rest ih =>
    obtain ⟨a, b⟩ := p
    by_cases ha : a = k
    · simp only [mapDel, if_pos ha, countRunning]
      omega
    · simp only [mapDel, if_neg ha, countRunning]
      omega

theorem countRunning_zero (m : List (String × Download))
    (h : ∀ p ∈ m, isRunning p.2 = false) : countRunning m = 0 := by
  induction m with
  | nil => rfl
  | cons p rest ih =>
    have hp := h p (List.mem_cons_self p rest)
    have hr := ih (fun q hq => h q (List.mem_cons_of_mem _ hq))
    simp [countRunning, hp, hr]

/-! ## Lemmas: first occurrences -/

theorem firsts_append (l : List String) (a : String) :
    firsts (l ++ [a]) = if a ∈ l then firsts l else firsts l ++ [a] := by
  induction l with
  | nil => simp [firsts]
  | cons x t ih =>
    have key : firsts ((x :: t) ++ [a]) =
        x :: (firsts (t ++ [a])).filter (fun y => ¬(y = x)) := by
      rw [List.cons_append]
      rfl
    rw [key, ih]
    by_cases hat : a ∈ t
    · simp [hat, firsts, List.mem_cons]
    · by_cases hax : a = x
      · subst hax
        simp [hat, List.filter_append, firsts, List.mem_cons]
      · simp [hat, hax, List.filter_append, firsts, List.mem_cons]

theorem firsts_append_mem (l : List String) (a : String) (h : a ∈ l) :
    firsts (l ++ [a]) = firsts l := by
  simp [firsts_append, h]

theorem firsts_append_not_mem (l : List String) (a : String) (h : a ∉ l) :
    firsts (l ++ [a]) = firsts l ++ [a] := by
  simp [firsts_append, h]

theorem keys_mapSet_of_get {α : Type} (m : List (String × α)) (k : String) {v : α}
    (v' : α) (h : mapGet m k = some v) : (mapSet m k v').map (·.1) = m.map (·.1) := by
  induction m with
  | nil => simp [mapGet] at h
  | cons p rest ih =>
    obtain ⟨a, b⟩ := p
    by_cases ha : a = k
    · subst ha
      simp [mapSet]
    · simp only [mapGet, if_neg ha] at h
      simp [mapSet, ha, ih h]

/-! ## Lemmas: the four situations of `startDownload` -/

theorem startDownload_not_found (s : EngineState) (id : String)
    (h : mapGet s.active id = none) : startDownload s id = s := by
  simp [startDownload, h]

theorem startDownload_no_config (s : EngineState) (id : String) (dl : Download)
    (hget : mapGet s.active id = some dl) (hcfg : dl.config = none) :
    startDownload s id = { s with crashed := true } := by
  simp [startDownload, hget, hcfg]

theorem startDownload_spawn (s : EngineState) (id : String) (dl : Download) (cfg : Config)
    (hget : mapGet s.active id = some dl) (hcfg : dl.config = some cfg)
    (hl : launches cfg = true) :
    startDownload s id =
      { s with time := s.time + 1,
               active := mapSet (mapSet s.active id { dl with info := startedInfo dl s.time })
                 id { dl with info := startedInfo dl s.time, hasProc := true },
               broadcasts := s.broadcasts ++
                 [({ btype := "status-change", dl := startedInfo dl s.time } : BMsg)],
               spawned := s.spawned ++ [id] } := by
  have hl' := hl
  simp only [launches, Bool.or_eq_true] at hl'
  by_cases hA : ((cfg.forceVideo || isVideoPlatform cfg.url) && !isMagnet cfg.url) = true
  · simp [startDownload, startedInfo, hget, hcfg, hA]
  · have hB : (isStreamUrl cfg.url && !isMagnet cfg.url) = true := hl'.resolve_left hA
    simp [startDownload, startedInfo, hget, hcfg, hA, hB]

theorem startDownload_crash (s : EngineState) (id : String) (dl : Download) (cfg : Config)
    (hget : mapGet s.active id = some dl) (hcfg : dl.config = some cfg)
    (hl : launches cfg = false) :
    startDownload s id =
      { s with time := s.time + 1,
               active := mapSet s.active id { dl with info := startedInfo dl s.time },
               broadcasts := s.broadcasts ++
                 [({ btype := "status-change", dl := startedInfo dl s.time } : BMsg)],
               crashed := true } := by
  have hl' := hl
  simp only [launches, Bool.or_eq_false_iff] at hl'
  simp [startDownload, startedInfo, hget, hcfg, hl'.1, hl'.2]

theorem startDownload_frame (s : EngineState) (id : String) :
    (startDownload s id).queue = s.queue ∧
    (startDownload s id).pendingRetries = s.pendingRetries ∧
    (startDownload s id).submitted = s.submitted ∧
    (startDownload s id).everIds = s.everIds ∧
    (startDownload s id).history = s.history := by
  cases hget : mapGet s.active id with
  | none => rw [startDownload_not_found s id hget]; exact ⟨rfl, rfl, rfl, rfl, rfl⟩
  | some dl =>
    cases hcfg : dl.config with
    | none => rw [startDownload_no_config s id dl hget hcfg]; exact ⟨rfl, rfl, rfl, rfl, rfl⟩
    | some cfg =>
      by_cases hl : launches cfg = true
      · rw [startDownload_spawn s id dl cfg hget hcfg hl]; exact ⟨rfl, rfl, rfl, rfl, rfl⟩
      · have hl' : launches cfg = false := by revert hl; cases launches cfg <;> simp
        rw [startDownload_crash s id dl cfg hget hcfg hl']; exact ⟨rfl, rfl, rfl, rfl, rfl⟩

theorem startDownload_mapGet_ne (s : EngineState) (j id : String) (h : j ≠ id) :
    mapGet (startDownload s j).active id = mapGet s.active id := by
  cases hget : mapGet s.active j with
  | none => rw [startDownload_not_found s j hget]
  | some dl =>
    cases hcfg : dl.config with
    | none => rw [startDownload_no_config s j dl hget hcfg]
    | some cfg =>
      by_cases hl : launches cfg = true
      · rw [startDownload_spawn s j dl cfg hget hcfg hl]
        simp only []
        rw [mapGet_mapSet_ne _ _ _ _ h, mapGet_mapSet_ne _ _ _ _ h]
      · have hl' : launches cfg = false := by revert hl; cases launches cfg <;> simp
        rw [startDownload_crash s j dl cfg hget hcfg hl']
        simp only []
        rw [mapGet_mapSet_ne _ _ _ _ h]

theorem startDownload_spawned_cases (s : EngineState) (j : String) :
    (startDownload s j).spawned = s.spawned ∨
    ((startDownload s j).spawned = s.spawned ++ [j] ∧
      ∃ dl, mapGet s.active j = some dl) := by
  cases hget : mapGet s.active j with
  | none => rw [startDownload_not_found s j hget]; exact Or.inl rfl
  | some dl =>
    cases hcfg : dl.config with
    | none => rw [startDownload_no_config s j dl hget hcfg]; exact Or.inl rfl
    | some cfg =>
      by_cases hl : launches cfg = true
      · rw [startDownload_spawn s j dl cfg hget hcfg hl]
        exact Or.inr ⟨rfl, dl, rfl⟩
      · have hl' : launches cfg = false := by revert hl; cases launches cfg <;> simp
        rw [startDownload_crash s j dl cfg hget hcfg hl']
        exact Or.inl rfl

theorem startDownload_keys (s : EngineState) (j : String) :
    (startDownload s j).active.map (·.1) = s.active.map (·.1) := by
  cases hget : mapGet s.active j with
  | none => rw [startDownload_not_found s j hget]
  | some dl =>
    cases hcfg : dl.config with
    | none => rw [startDownload_no_config s j dl hget hcfg]
    | some cfg =>
      by_cases hl : launches cfg = true
      · rw [startDownload_spawn s j dl cfg hget hcfg hl]
        simp only []
        rw [keys_mapSet_of_get _ _ _ (mapGet_mapSet_self s.active j _),
            keys_mapSet_of_get _ _ _ hget]
      · have hl' : launches cfg = false := by revert hl; cases launches cfg <;> simp
        rw [startDownload_crash s j dl cfg hget hcfg hl']
        simp only []
        rw [keys_mapSet_of_get _ _ _ hget]

/-! ## Lemmas: `processQueue` -/

theorem processQueueAux_ind (P : Params) (M : EngineState → Prop)
    (hstep : ∀ s id rest, s.queue = id :: rest → runningCount s < P.maxConcurrent →
      M s → M (startDownload { s with queue := rest } id)) :
    ∀ n s, M s → M (processQueueAux P n s) := by
  intro n
  induction n with
  | zero => intro s h; exact h
  | succ n ih =>
    intro s h
    rcases hq : s.queue with _ | ⟨id, rest⟩
    · simp only [processQueueAux, hq]
      exact h
    · simp only [processQueueAux, hq]
      by_cases hr : runningCount s < P.maxConcurrent
      · rw [if_pos hr]
        have h1 := hstep s id rest hq hr h
        by_cases hc : (startDownload { s with queue := rest } id).crashed = true
        · rw [if_pos hc]
          exact h1
        · rw [if_neg hc]
          exact ih _ h1
      · rw [if_neg hr]
        exact h

theorem processQueue_ind (P : Params) (M : EngineState → Prop)
    (hstep : ∀ s id rest, s.queue = id :: rest → runningCount s < P.maxConcurrent →
      M s → M (startDownload { s with queue := rest } id))
    (s : EngineState) (h : M s) : M (processQueue P s) :=
  processQueueAux_ind P M hstep s.queue.length s h

theorem processQueue_frame (P : Params) (s : EngineState) :
    (processQueue P s).pendingRetries = s.pendingRetries ∧
    (processQueue P s).submitted = s.submitted ∧
    (processQueue P s).everIds = s.everIds ∧
    (processQueue P s).history = s.history := by
  refine processQueue_ind P
    (fun t => t.pendingRetries = s.pendingRetries ∧ t.submitted = s.submitted ∧
      t.everIds = s.everIds ∧ t.history = s.history) ?_ s ⟨rfl, rfl, rfl, rfl⟩
  intro t id rest _ _ h
  obtain ⟨_, f2, f3, f4, f5⟩ := startDownload_frame { t with queue := rest } id
  exact ⟨f2.trans h.1, f3.trans h.2.1, f4.trans h.2.2.1, f5.trans h.2.2.2⟩

theorem processQueue_not_queued (P : Params) (id : String) (s : EngineState)
    (h : id ∉ s.queue) :
    id ∉ (processQueue P s).queue ∧
    mapGet (processQueue P s).active id = mapGet s.active id ∧
    (id ∈ (processQueue P s).spawned ↔ id ∈ s.spawned) := by
  refine processQueue_ind P
    (fun t => id ∉ t.queue ∧ mapGet t.active id = mapGet s.active id ∧
      (id ∈ t.spawned ↔ id ∈ s.spawned)) ?_ s ⟨h, rfl, Iff.rfl⟩
  intro t j rest hq _ ht
  obtain ⟨h1, h2, h3⟩ := ht
  rw [hq] at h1
  simp only [List.mem_cons] at h1
  push_neg at h1
  obtain ⟨hji, hrest⟩ := h1
  have hne : j ≠ id := fun e => hji e.symm
  refine ⟨?_, ?_, ?_⟩
  · rw [(startDownload_frame _ _).1]
    exact hrest
  · rw [startDownload_mapGet_ne _ _ _ hne]
    exact h2
  · rcases startDownload_spawned_cases { t with queue := rest } j with hs | ⟨hs, _⟩
    · rw [hs]; exact h3
    · rw [hs]
      simp only [List.mem_append, List.mem_singleton]
      constructor
      · rintro (hm | hm)
        · exact h3.mp hm
        · exact absurd hm hji
      · intro hm
        exact Or.inl (h3.mpr hm)

theorem statusOf_eq_some {s : EngineState} {id : String} {dl : Download}
    (h : mapGet s.active id = some dl) : statusOf s id = some dl.info.status := by
  simp [statusOf, h]

/-! ## The inductive invariant is preserved by one `processQueue` round -/

theorem engInv_pop (P : Params) (s : EngineState) (id : String) (rest : List String)
    (hq : s.queue = id :: rest) (hr : runningCount s < P.maxConcurrent)
    (h : EngInv P s) : EngInv P (startDownload { s with queue := rest } id) := by
  have hidq : id ∈ s.queue := by rw [hq]; exact List.mem_cons_self _ _
  have hidrest : id ∉ rest := by
    have hnd := h.queueNodup
    rw [hq] at hnd
    exact (List.nodup_cons.mp hnd).1
  have hrestnd : rest.Nodup := by
    have hnd := h.queueNodup
    rw [hq] at hnd
    exact (List.nodup_cons.mp hnd).2
  obtain ⟨done, hsub, hfs⟩ := h.fifo
  have hsub' : s.submitted = (done ++ [id]) ++ rest := by
    rw [hsub, hq]
    simp
  have hfs' : List.Sublist (firsts s.spawned) (done ++ [id]) :=
    hfs.trans (List.sublist_append_left done [id])
  have hqrestrict : ∀ j, j ∈ rest → j ∈ s.queue := by
    intro j hj
    rw [hq]
    exact List.mem_cons_of_mem _ hj
  cases hget : mapGet s.active id with
  | none =>
    rw [startDownload_not_found { s with queue := rest } id hget]
    exact
      { countLe := h.countLe
        queueStatus := fun j hj => h.queueStatus j (hqrestrict j hj)
        pendStatus := h.pendStatus
        queueNodup := hrestnd
        pendNodup := h.pendNodup
        queueEver := fun j hj => h.queueEver j (hqrestrict j hj)
        pendEver := h.pendEver
        activeEver := h.activeEver
        fifo := ⟨done ++ [id], hsub', hfs'⟩
        queueUnspawned := fun j hj => h.queueUnspawned j (hqrestrict j hj)
        pendSpawned := h.pendSpawned
        spawnedEver := h.spawnedEver
        runSpawned := h.runSpawned }
  | some dl =>
    have hsid := statusOf_eq_some hget
    have hstq : dl.info.status = Status.queued := by
      rcases h.queueStatus id hidq with hv | hv
      · rw [hsid] at hv
        exact Option.some_inj.mp hv
      · rw [hsid] at hv
        cases hv
    have hnotpend : id ∉ s.pendingRetries := by
      intro hp
      rcases h.pendStatus id hp with hv | hv
      · rw [hsid, hstq] at hv
        cases hv
      · rw [hsid] at hv
        cases hv
    have hidspawn : id ∉ s.spawned := h.queueUnspawned id hidq
    have hidever : id ∈ s.everIds := h.queueEver id hidq
    cases hcfg : dl.config with
    | none =>
      rw [startDownload_no_config { s with queue := rest } id dl hget hcfg]
      exact
        { countLe := h.countLe
          queueStatus := fun j hj => h.queueStatus j (hqrestrict j hj)
          pendStatus := h.pendStatus
          queueNodup := hrestnd
          pendNodup := h.pendNodup
          queueEver := fun j hj => h.queueEver j (hqrestrict j hj)
          pendEver := h.pendEver
          activeEver := h.activeEver
          fifo := ⟨done ++ [id], hsub', hfs'⟩
          queueUnspawned := fun j hj => h.queueUnspawned j (hqrestrict j hj)
          pendSpawned := h.pendSpawned
          spawnedEver := h.spawnedEver
          runSpawned := fun hcr => absurd hcr (by simp) }
    | some cfg =>
      by_cases hl : launches cfg = true
      · rw [startDownload_spawn { s with queue := rest } id dl cfg hget hcfg hl]
        refine
          { countLe := ?_
            queueStatus := ?_
            pendStatus := ?_
            queueNodup := hrestnd
            pendNodup := h.pendNodup
            queueEver := fun j hj => h.queueEver j (hqrestrict j hj)
            pendEver := h.pendEver
            activeEver := ?_
            fifo := ?_
            queueUnspawned := ?_
            pendSpawned := fun j hj => List.mem_append_left _ (h.pendSpawned j hj)
            spawnedEver := ?_
            runSpawned := ?_ }
        · show countRunning (mapSet (mapSet s.active id
              { dl with info := startedInfo dl s.time }) id
              { dl with info := startedInfo dl s.time, hasProc := true }) ≤ P.maxConcurrent
          rw [mapSet_mapSet]
          have hle := countRunning_mapSet_le s.active id
            { dl with info := startedInfo dl s.time, hasProc := true }
          have hlt : countRunning s.active < P.maxConcurrent := hr
          omega
        · intro j hj
          have hne : id ≠ j := fun e => hidrest (e ▸ hj)
          have hframe : mapGet (mapSet (mapSet s.active id
              { dl with info := startedInfo dl s.time }) id
              { dl with info := startedInfo dl s.time, hasProc := true }) j
              = mapGet s.active j := by
            rw [mapGet_mapSet_ne _ _ _ _ hne, mapGet_mapSet_ne _ _ _ _ hne]
          simp only [statusOf] at *
          rw [hframe]
          exact h.queueStatus j (hqrestrict j hj)
        · intro j hj
          have hne : id ≠ j := fun e => hnotpend (e ▸ hj)
          have hframe : mapGet (mapSet (mapSet s.active id
              { dl with info := startedInfo dl s.time }) id
              { dl with info := startedInfo dl s.time, hasProc := true }) j
              = mapGet s.active j := by
            rw [mapGet_mapSet_ne _ _ _ _ hne, mapGet_mapSet_ne _ _ _ _ hne]
          simp only [statusOf] at *
          rw [hframe]
          exact h.pendStatus j hj
        · intro j hj
          simp only [] at hj
          rw [keys_mapSet_of_get _ _ _ (mapGet_mapSet_self s.active id _),
              keys_mapSet_of_get _ _ _ hget] at hj
          exact h.activeEver j hj
        · refine ⟨done ++ [id], hsub', ?_⟩
          show List.Sublist (firsts (s.spawned ++ [id])) (done ++ [id])
          rw [firsts_append_not_mem s.spawned id hidspawn]
          exact hfs.append (List.Sublist.refl [id])
        · intro j hj
          have hne : j ≠ id := fun e => hidrest (e ▸ hj)
          simp only [List.mem_append, List.mem_singleton]
          push_neg
          exact ⟨h.queueUnspawned j (hqrestrict j hj), hne⟩
        · intro j hj
          rcases List.mem_append.mp hj with hm | hm
          · exact h.spawnedEver j hm
          · rw [List.mem_singleton.mp hm]
            exact hidever
        · intro hcr j hst
          by_cases hji : j = id
          · subst hji
            exact List.mem_append_right _ (List.mem_singleton.mpr rfl)
          · have hne : id ≠ j := fun e => hji e.symm
            have hframe : mapGet (mapSet (mapSet s.active id
                { dl with info := startedInfo dl s.time }) id
                { dl with info := startedInfo dl s.time, hasProc := true }) j
                = mapGet s.active j := by
              rw [mapGet_mapSet_ne _ _ _ _ hne, mapGet_mapSet_ne _ _ _ _ hne]
            simp only [statusOf] at hst
            rw [hframe] at hst
            exact List.mem_append_left _ (h.runSpawned hcr j hst)
      · have hl' : launches cfg = false := by revert hl; cases launches cfg <;> simp
        rw [startDownload_crash { s with queue := rest } id dl cfg hget hcfg hl']
        refine
          { countLe := ?_
            queueStatus := ?_
            pendStatus := ?_
            queueNodup := hrestnd
            pendNodup := h.pendNodup
            queueEver := fun j hj => h.queueEver j (hqrestrict j hj)
            pendEver := h.pendEver
            activeEver := ?_
            fifo := ⟨done ++ [id], hsub', hfs'⟩
            queueUnspawned := fun j hj => h.queueUnspawned j (hqrestrict j hj)
            pendSpawned := h.pendSpawned
            spawnedEver := h.spawnedEver
            runSpawned := fun hcr => absurd hcr (by simp) }
        · show countRunning (mapSet s.active id
              { dl with info := startedInfo dl s.time }) ≤ P.maxConcurrent
          have hle := countRunning_mapSet_le s.active id
            { dl with info := startedInfo dl s.time }
          have hlt : countRunning s.active < P.maxConcurrent := hr
          omega
        · intro j hj
          have hne : id ≠ j := fun e => hidrest (e ▸ hj)
          have hframe : mapGet (mapSet s.active id
              { dl with info := startedInfo dl s.time }) j = mapGet s.active j :=
            mapGet_mapSet_ne _ _ _ _ hne
          simp only [statusOf] at *
          rw [hframe]
          exact h.queueStatus j (hqrestrict j hj)
        · intro j hj
          have hne : id ≠ j := fun e => hnotpend (e ▸ hj)
          have hframe : mapGet (mapSet s.active id
              { dl with info := startedInfo dl s.time }) j = mapGet s.active j :=
            mapGet_mapSet_ne _ _ _ _ hne
          simp only [statusOf] at *
          rw [hframe]
          exact h.pendStatus j hj
        · intro j hj
          simp only [] at hj
          rw [keys_mapSet_of_get _ _ _ hget] at hj
          exact h.activeEver j hj

theorem engInv_processQueue (P : Params) (s : EngineState) (h : EngInv P s) :
    EngInv P (processQueue P s) :=
  processQueue_ind P (EngInv P) (fun t id rest hq hr ht => engInv_pop P t id rest hq hr ht) s h

theorem keys_mapDel_sub {α : Type} {m : List (String × α)} {k j : String}
    (h : j ∈ (mapDel m k).map (·.1)) : j ∈ m.map (·.1) := by
  induction m with
  | nil => simp [mapDel] at h
  | cons p rest ih =>
    obtain ⟨a, b⟩ := p
    by_cases ha : a = k
    · simp only [mapDel, if_pos ha] at h
      simp [ih h]
    · simp only [mapDel, if_neg ha, List.map_cons, List.mem_cons] at h
      rcases h with h | h
      · simp [h]
      · simp [ih h]

theorem mapGet_some_mem {α : Type} {m : List (String × α)} {k : String} {v : α}
    (h : mapGet m k = some v) : (k, v) ∈ m := by
  induction m with
  | nil => simp [mapGet] at h
  | cons p rest ih =>
    obtain ⟨a, b⟩ := p
    by_cases ha : a = k
    · subst ha
      simp [mapGet] at h
      simp [h]
    · simp only [mapGet, if_neg ha] at h
      exact List.mem_cons_of_mem _ (ih h)

theorem restoreInfo_not_running (info : Info) :
    (restoreInfo info).status ≠ Status.downloading ∧
    (restoreInfo info).status ≠ Status.retrying := by
  unfold restoreInfo
  split
  · exact ⟨by simp, by simp⟩
  · rename_i hcond
    push_neg at hcond
    exact hcond

/-! ## The invariant is preserved by a retry-timer start -/

theorem engInv_fire (P : Params) (s : EngineState) (id : String)
    (h : EngInv P s) (hp : id ∈ s.pendingRetries) :
    EngInv P (startDownload { s with pendingRetries := s.pendingRetries.erase id } id) := by
  have hperase : ∀ j, j ∈ s.pendingRetries.erase id → j ∈ s.pendingRetries :=
    fun j hj => List.mem_of_mem_erase hj
  have hpnd : (s.pendingRetries.erase id).Nodup := h.pendNodup.erase id
  have hnerase : id ∉ s.pendingRetries.erase id := by
    intro hm
    exact absurd ((h.pendNodup.mem_erase_iff).mp hm).1 (by simp)
  obtain ⟨done, hsub, hfs⟩ := h.fifo
  cases hget : mapGet s.active id with
  | none =>
    rw [startDownload_not_found { s with pendingRetries := s.pendingRetries.erase id } id hget]
    exact
      { countLe := h.countLe
        queueStatus := h.queueStatus
        pendStatus := fun j hj => h.pendStatus j (hperase j hj)
        queueNodup := h.queueNodup
        pendNodup := hpnd
        queueEver := h.queueEver
        pendEver := fun j hj => h.pendEver j (hperase j hj)
        activeEver := h.activeEver
        fifo := ⟨done, hsub, hfs⟩
        queueUnspawned := h.queueUnspawned
        pendSpawned := fun j hj => h.pendSpawned j (hperase j hj)
        spawnedEver := h.spawnedEver
        runSpawned := h.runSpawned }
  | some dl =>
    have hsid := statusOf_eq_some hget
    have hstr : dl.info.status = Status.retrying := by
      rcases h.pendStatus id hp with hv | hv
      · rw [hsid] at hv
        exact Option.some_inj.mp hv
      · rw [hsid] at hv
        cases hv
    have hqid : id ∉ s.queue := by
      intro hm
      rcases h.queueStatus id hm with hv | hv
      · rw [hsid, hstr] at hv
        cases hv
      · rw [hsid] at hv
        cases hv
    have hidsp : id ∈ s.spawned := h.pendSpawned id hp
    have hidever : id ∈ s.everIds := h.pendEver id hp
    have hrun : isRunning dl = true := by
      simp [isRunning, hstr]
    cases hcfg : dl.config with
    | none =>
      rw [startDownload_no_config { s with pendingRetries := s.pendingRetries.erase id } id dl hget hcfg]
      exact
        { countLe := h.countLe
          queueStatus := h.queueStatus
          pendStatus := fun j hj => h.pendStatus j (hperase j hj)
          queueNodup := h.queueNodup
          pendNodup := hpnd
          queueEver := h.queueEver
          pendEver := fun j hj => h.pendEver j (hperase j hj)
          activeEver := h.activeEver
          fifo := ⟨done, hsub, hfs⟩
          queueUnspawned := h.queueUnspawned
          pendSpawned := fun j hj => h.pendSpawned j (hperase j hj)
          spawnedEver := h.spawnedEver
          runSpawned := fun hcr => absurd hcr (by simp) }
    | some cfg =>
      by_cases hl : launches cfg = true
      · rw [startDownload_spawn { s with pendingRetries := s.pendingRetries.erase id } id dl cfg hget hcfg hl]
        refine
          { countLe := ?_
            queueStatus := ?_
            pendStatus := ?_
            queueNodup := h.queueNodup
            pendNodup := hpnd
            queueEver := h.queueEver
            pendEver := fun j hj => h.pendEver j (hperase j hj)
            activeEver := ?_
            fifo := ?_
            queueUnspawned := ?_
            pendSpawned := fun j hj => List.mem_append_left _ (h.pendSpawned j (hperase j hj))
            spawnedEver := ?_
            runSpawned := ?_ }
        · show countRunning (mapSet (mapSet s.active id
              { dl with info := startedInfo dl s.time }) id
              { dl with info := startedInfo dl s.time, hasProc := true }) ≤ P.maxConcurrent
          rw [mapSet_mapSet]
          rw [countRunning_mapSet_eq s.active id
            { dl with info := startedInfo dl s.time, hasProc := true } hget
            (by simp [isRunning, startedInfo, hrun, hstr])]
          exact h.countLe
        · intro j hj
          have hne : id ≠ j := fun e => hqid (e ▸ hj)
          have hframe : mapGet (mapSet (mapSet s.active id
              { dl with info := startedInfo dl s.time }) id
              { dl with info := startedInfo dl s.time, hasProc := true }) j
              = mapGet s.active j := by
            rw [mapGet_mapSet_ne _ _ _ _ hne, mapGet_mapSet_ne _ _ _ _ hne]
          simp only [statusOf] at *
          rw [hframe]
          exact h.queueStatus j hj
        · intro j hj
          have hne : id ≠ j := fun e => hnerase (e ▸ hj)
          have hframe : mapGet (mapSet (mapSet s.active id
              { dl with info := startedInfo dl s.time }) id
              { dl with info := startedInfo dl s.time, hasProc := true }) j
              = mapGet s.active j := by
            rw [mapGet_mapSet_ne _ _ _ _ hne, mapGet_mapSet_ne _ _ _ _ hne]
          simp only [statusOf] at *
          rw [hframe]
          exact h.pendStatus j (hperase j hj)
        · intro j hj
          simp only [] at hj
          rw [keys_mapSet_of_get _ _ _ (mapGet_mapSet_self s.active id _),
              keys_mapSet_of_get _ _ _ hget] at hj
          exact h.activeEver j hj
        · refine ⟨done, hsub, ?_⟩
          show List.Sublist (firsts (s.spawned ++ [id])) done
          rw [firsts_append_mem s.spawned id hidsp]
          exact hfs
        · intro j hj
          have hne : j ≠ id := fun e => hqid (e ▸ hj)
          simp only [List.mem_append, List.mem_singleton]
          push_neg
          exact ⟨h.queueUnspawned j hj, hne⟩
        · intro j hj
          rcases List.mem_append.mp hj with hm | hm
          · exact h.spawnedEver j hm
          · rw [List.mem_singleton.mp hm]
            exact hidever
        · intro hcr j hst
          by_cases hji : j = id
          · subst hji
            exact List.mem_append_left _ hidsp
          · have hne : id ≠ j := fun e => hji e.symm
            have hframe : mapGet (mapSet (mapSet s.active id
                { dl with info := startedInfo dl s.time }) id
                { dl with info := startedInfo dl s.time, hasProc := true }) j
                = mapGet s.active j := by
              rw [mapGet_mapSet_ne _ _ _ _ hne, mapGet_mapSet_ne _ _ _ _ hne]
            simp only [statusOf] at hst
            rw [hframe] at hst
            exact List.mem_append_left _ (h.runSpawned hcr j hst)
      · have hl' : launches cfg = false := by revert hl; cases launches cfg <;> simp
        rw [startDownload_crash { s with pendingRetries := s.pendingRetries.erase id } id dl cfg hget hcfg hl']
        refine
          { countLe := ?_
            queueStatus := ?_
            pendStatus := ?_
            queueNodup := h.queueNodup
            pendNodup := hpnd
            queueEver := h.queueEver
            pendEver := fun j hj => h.pendEver j (hperase j hj)
            activeEver := ?_
            fifo := ⟨done, hsub, hfs⟩
            queueUnspawned := h.queueUnspawned
            pendSpawned := fun j hj => h.pendSpawned j (hperase j hj)
            spawnedEver := h.spawnedEver
            runSpawned := fun hcr => absurd hcr (by simp) }
        · show countRunning (mapSet s.active id
              { dl with info := startedInfo dl s.time }) ≤ P.maxConcurrent
          rw [countRunning_mapSet_eq s.active id
            { dl with info := startedInfo dl s.time } hget
            (by simp [isRunning, startedInfo, hstr])]
          exact h.countLe
        · intro j hj
          have hne : id ≠ j := fun e => hqid (e ▸ hj)
          have hframe : mapGet (mapSet s.active id
              { dl with info := startedInfo dl s.time }) j = mapGet s.active j :=
            mapGet_mapSet_ne _ _ _ _ hne
          simp only [statusOf] at *
          rw [hframe]
          exact h.queueStatus j hj
        · intro j hj
          have hne : id ≠ j := fun e => hnerase (e ▸ hj)
          have hframe : mapGet (mapSet s.active id
              { dl with info := startedInfo dl s.time }) j = mapGet s.active j :=
            mapGet_mapSet_ne _ _ _ _ hne
          simp only [statusOf] at *
          rw [hframe]
          exact h.pendStatus j (hperase j hj)
        · intro j hj
          simp only [] at hj
          rw [keys_mapSet_of_get _ _ _ hget] at hj
          exact h.activeEver j hj

/-! ## The invariant is preserved by the remaining mutations -/

theorem engInv_del (P : Params) (s s' : EngineState) (id : String) (h : EngInv P s)
    (ha : s'.active = mapDel s.active id)
    (hq : s'.queue = s.queue) (hp : s'.pendingRetries = s.pendingRetries)
    (hsp : s'.spawned = s.spawned) (hsub : s'.submitted = s.submitted)
    (hev : s'.everIds = s.everIds) (hcr : s'.crashed = s.crashed) :
    EngInv P s' := by
  obtain ⟨done, hdone, hfs⟩ := h.fifo
  have hstat : ∀ j, statusOf s' j = statusOf s j ∨ statusOf s' j = none := by
    intro j
    simp only [statusOf, ha]
    rcases mapGet_mapDel_cases s.active id j with hc | hc
    · rw [hc]
      exact Or.inr rfl
    · rw [hc]
      exact Or.inl rfl
  refine
    { countLe := ?_
      queueStatus := ?_
      pendStatus := ?_
      queueNodup := by rw [hq]; exact h.queueNodup
      pendNodup := by rw [hp]; exact h.pendNodup
      queueEver := fun j hj => by
        rw [hev]
        exact h.queueEver j (by rwa [hq] at hj)
      pendEver := fun j hj => by
        rw [hev]
        exact h.pendEver j (by rwa [hp] at hj)
      activeEver := ?_
      fifo := ⟨done, by rw [hsub, hq, hdone], by rw [hsp]; exact hfs⟩
      queueUnspawned := fun j hj => by
        rw [hsp]
        exact h.queueUnspawned j (by rwa [hq] at hj)
      pendSpawned := fun j hj => by
        rw [hsp]
        exact h.pendSpawned j (by rwa [hp] at hj)
      spawnedEver := fun j hj => by
        rw [hev]
        exact h.spawnedEver j (by rwa [hsp] at hj)
      runSpawned := ?_ }
  · show countRunning s'.active ≤ P.maxConcurrent
    rw [ha]
    exact (countRunning_mapDel_le s.active id).trans h.countLe
  · intro j hj
    rw [hq] at hj
    rcases hstat j with hc | hc
    · rw [hc]
      exact h.queueStatus j hj
    · rw [hc]
      exact Or.inr rfl
  · intro j hj
    rw [hp] at hj
    rcases hstat j with hc | hc
    · rw [hc]
      exact h.pendStatus j hj
    · rw [hc]
      exact Or.inr rfl
  · intro j hj
    rw [ha] at hj
    rw [hev]
    exact h.activeEver j (keys_mapDel_sub hj)
  · intro hcrf j hst
    rw [hcr] at hcrf
    rw [hsp]
    rcases hstat j with hc | hc
    · rw [hc] at hst
      exact h.runSpawned hcrf j hst
    · rw [hc] at hst
      rcases hst with hst | hst <;> cases hst

theorem engInv_clear (P : Params) (s s' : EngineState) (h : EngInv P s)
    (ha : s'.active = [])
    (hq : s'.queue = s.queue) (hp : s'.pendingRetries = s.pendingRetries)
    (hsp : s'.spawned = s.spawned) (hsub : s'.submitted = s.submitted)
    (hev : s'.everIds = s.everIds) : EngInv P s' := by
  obtain ⟨done, hdone, hfs⟩ := h.fifo
  have hstat : ∀ j, statusOf s' j = none := by
    intro j
    simp [statusOf, ha, mapGet]
  refine
    { countLe := ?_
      queueStatus := fun j _ => Or.inr (hstat j)
      pendStatus := fun j _ => Or.inr (hstat j)
      queueNodup := by rw [hq]; exact h.queueNodup
      pendNodup := by rw [hp]; exact h.pendNodup
      queueEver := fun j hj => by
        rw [hev]
        exact h.queueEver j (by rwa [hq] at hj)
      pendEver := fun j hj => by
        rw [hev]
        exact h.pendEver j (by rwa [hp] at hj)
      activeEver := fun j hj => by rw [ha] at hj; simp at hj
      fifo := ⟨done, by rw [hsub, hq, hdone], by rw [hsp]; exact hfs⟩
      queueUnspawned := fun j hj => by
        rw [hsp]
        exact h.queueUnspawned j (by rwa [hq] at hj)
      pendSpawned := fun j hj => by
        rw [hsp]
        exact h.pendSpawned j (by rwa [hp] at hj)
      spawnedEver := fun j hj => by
        rw [hev]
        exact h.spawnedEver j (by rwa [hsp] at hj)
      runSpawned := ?_ }
  · show countRunning s'.active ≤ P.maxConcurrent
    rw [ha]
    exact Nat.zero_le _
  · intro _ j hst
    rw [hstat j] at hst
    rcases hst with hst | hst <;> cases hst

theorem engInv_submit (P : Params) (s : EngineState) (id : String) (cfg : Config)
    (h : EngInv P s) (hfresh : id ∉ s.everIds) :
    EngInv P (submitStep P s id cfg) := by
  have hkeys : id ∉ s.active.map (·.1) := fun hm => hfresh (h.activeEver id hm)
  have hget0 : mapGet s.active id = none := mapGet_none_of_not_mem_keys hkeys
  have hqid : id ∉ s.queue := fun hm => hfresh (h.queueEver id hm)
  have hpid : id ∉ s.pendingRetries := fun hm => hfresh (h.pendEver id hm)
  have hspid : id ∉ s.spawned := fun hm => hfresh (h.spawnedEver id hm)
  obtain ⟨done, hdone, hfs⟩ := h.fifo
  show EngInv P (processQueue P
    { s with
        active := mapSet s.active id
          { info := newInfo id cfg, config := some cfg, hasProc := false, retryCount := 0 },
        queue := s.queue ++ [id],
        submitted := s.submitted ++ [id],
        everIds := s.everIds ++ [id],
        broadcasts := s.broadcasts ++ [({ btype := "update", dl := newInfo id cfg } : BMsg)] })
  apply engInv_processQueue
  refine
    { countLe := ?_
      queueStatus := ?_
      pendStatus := ?_
      queueNodup := ?_
      pendNodup := h.pendNodup
      queueEver := ?_
      pendEver := fun j hj => List.mem_append_left _ (h.pendEver j hj)
      activeEver := ?_
      fifo := ⟨done, ?_, hfs⟩
      queueUnspawned := ?_
      pendSpawned := h.pendSpawned
      spawnedEver := fun j hj => List.mem_append_left _ (h.spawnedEver j hj)
      runSpawned := ?_ }
  · show countRunning (mapSet s.active id
      { info := newInfo id cfg, config := some cfg, hasProc := false, retryCount := 0 })
      ≤ P.maxConcurrent
    rw [countRunning_mapSet_not_mem s.active id _ hget0]
    have hnr : isRunning
        { info := newInfo id cfg, config := some cfg, hasProc := false, retryCount := 0 }
        = false := by simp [isRunning, newInfo]
    rw [hnr]
    simpa using h.countLe
  · intro j hj
    rcases List.mem_append.mp hj with hm | hm
    · have hne : id ≠ j := fun e => hqid (e ▸ hm)
      simp only [statusOf]
      rw [mapGet_mapSet_ne _ _ _ _ hne]
      exact h.queueStatus j hm
    · rw [List.mem_singleton.mp hm]
      simp only [statusOf]
      rw [mapGet_mapSet_self]
      exact Or.inl (by simp [newInfo])
  · intro j hj
    have hne : id ≠ j := fun e => hpid (e ▸ hj)
    simp only [statusOf]
    rw [mapGet_mapSet_ne _ _ _ _ hne]
    exact h.pendStatus j hj
  · show (s.queue ++ [id]).Nodup
    rw [List.nodup_append]
    exact ⟨h.queueNodup, List.nodup_singleton id,
      fun a ha hb => hqid (by rwa [List.mem_singleton.mp hb] at ha)⟩
  · intro j hj
    rcases List.mem_append.mp hj with hm | hm
    · exact List.mem_append_left _ (h.queueEver j hm)
    · exact List.mem_append_right _ hm
  · intro j hj
    simp only [] at hj
    rcases (mem_keys_mapSet s.active id _ j).mp hj with hm | hm
    · exact List.mem_append_right _ (by simp [hm])
    · exact List.mem_append_left _ (h.activeEver j hm)
  · show s.submitted ++ [id] = done ++ (s.queue ++ [id])
    rw [hdone, List.append_assoc]
  · intro j hj
    rcases List.mem_append.mp hj with hm | hm
    · exact h.queueUnspawned j hm
    · rw [List.mem_singleton.mp hm]
      exact hspid
  · intro hcr j hst
    by_cases hji : j = id
    · subst hji
      simp only [statusOf] at hst
      rw [mapGet_mapSet_self] at hst
      rcases hst with hst | hst <;> simp [newInfo] at hst
    · have hne : id ≠ j := fun e => hji e.symm
      simp only [statusOf] at hst
      rw [mapGet_mapSet_ne _ _ _ _ hne] at hst
      exact h.runSpawned hcr j hst

theorem engInv_replace (P : Params) (s s' : EngineState) (id : String) (dl v : Download)
    (h : EngInv P s) (hget : mapGet s.active id = some dl)
    (hrun : isRunning v = isRunning dl) (hsame : v.info.status = dl.info.status)
    (ha : s'.active = mapSet s.active id v)
    (hq : s'.queue = s.queue) (hp : s'.pendingRetries = s.pendingRetries)
    (hsp : s'.spawned = s.spawned) (hsub : s'.submitted = s.submitted)
    (hev : s'.everIds = s.everIds) (hcr : s'.crashed = s.crashed) :
    EngInv P s' := by
  obtain ⟨done, hdone, hfs⟩ := h.fifo
  have hstat : ∀ j, statusOf s' j = statusOf s j := by
    intro j
    simp only [statusOf, ha]
    by_cases hji : id = j
    · subst hji
      rw [mapGet_mapSet_self, hget]
      simp [hsame]
    · rw [mapGet_mapSet_ne _ _ _ _ hji]
  refine
    { countLe := ?_
      queueStatus := fun j hj => by
        rw [hstat j]
        exact h.queueStatus j (by rwa [hq] at hj)
      pendStatus := fun j hj => by
        rw [hstat j]
        exact h.pendStatus j (by rwa [hp] at hj)
      queueNodup := by rw [hq]; exact h.queueNodup
      pendNodup := by rw [hp]; exact h.pendNodup
      queueEver := fun j hj => by
        rw [hev]
        exact h.queueEver j (by rwa [hq] at hj)
      pendEver := fun j hj => by
        rw [hev]
        exact h.pendEver j (by rwa [hp] at hj)
      activeEver := ?_
      fifo := ⟨done, by rw [hsub, hq, hdone], by rw [hsp]; exact hfs⟩
      queueUnspawned := fun j hj => by
        rw [hsp]
        exact h.queueUnspawned j (by rwa [hq] at hj)
      pendSpawned := fun j hj => by
        rw [hsp]
        exact h.pendSpawned j (by rwa [hp] at hj)
      spawnedEver := fun j hj => by
        rw [hev]
        exact h.spawnedEver j (by rwa [hsp] at hj)
      runSpawned := fun hcrf j hstj => by
        rw [hsp]
        exact h.runSpawned (by rwa [hcr] at hcrf) j (by rwa [hstat j] at hstj) }
  · show countRunning s'.active ≤ P.maxConcurrent
    rw [ha, countRunning_mapSet_eq s.active id v hget hrun]
    exact h.countLe
  · intro j hj
    rw [ha] at hj
    rw [hev]
    rw [keys_mapSet_of_get _ _ _ hget] at hj
    exact h.activeEver j hj

theorem engInv_close (P : Params) (s : EngineState) (id : String) (code : Option Int)
    (lastError : String) (szb : Option Nat) (renameOk : Bool) (dl : Download)
    (h : EngInv P s) (hget : mapGet s.active id = some dl)
    (hst : dl.info.status = Status.downloading) (hcr : s.crashed = false) :
    EngInv P (closeStep P s id code lastError szb renameOk) := by
  have hsid : statusOf s id = some Status.downloading := by
    rw [statusOf_eq_some hget, hst]
  have hqid : id ∉ s.queue := by
    intro hm
    rcases h.queueStatus id hm with hv | hv
    · rw [hsid] at hv; cases hv
    · rw [hsid] at hv; cases hv
  have hpid : id ∉ s.pendingRetries := by
    intro hm
    rcases h.pendStatus id hm with hv | hv
    · rw [hsid] at hv; cases hv
    · rw [hsid] at hv; cases hv
  have hidsp : id ∈ s.spawned := h.runSpawned hcr id (Or.inl hsid)
  have hidever : id ∈ s.everIds := h.activeEver id (mapGet_some_mem_keys hget)
  obtain ⟨done, hdone, hfs⟩ := h.fifo
  cases hcfg : dl.config with
  | none =>
    have heq : closeStep P s id code lastError szb renameOk = s := by
      simp [closeStep, hget, hcfg]
    rw [heq]
    exact h
  | some cfg =>
    by_cases hc0 : code = some 0
    · simp only [closeStep, hget, hcfg]
      rw [if_pos hc0]
      apply engInv_processQueue
      exact engInv_del P s _ id h rfl rfl rfl rfl rfl rfl rfl
    · by_cases hretry :
        (decide (dl.retryCount < P.retryAttempts) && transientSig lastError code) = true
      · simp only [closeStep, hget, hcfg]
        rw [if_neg hc0, if_pos hretry]
        refine
          { countLe := ?_
            queueStatus := ?_
            pendStatus := ?_
            queueNodup := h.queueNodup
            pendNodup := ?_
            queueEver := h.queueEver
            pendEver := ?_
            activeEver := ?_
            fifo := ⟨done, hdone, hfs⟩
            queueUnspawned := h.queueUnspawned
            pendSpawned := ?_
            spawnedEver := h.spawnedEver
            runSpawned := ?_ }
        · refine le_trans (Nat.le_of_eq ?_) h.countLe
          refine countRunning_mapSet_eq s.active id _ hget ?_
          simp [isRunning, hst]
        · intro j hj
          have hne : id ≠ j := fun e => hqid (e ▸ hj)
          simp only [statusOf]
          rw [mapGet_mapSet_ne _ _ _ _ hne]
          exact h.queueStatus j hj
        · intro j hj
          rcases List.mem_append.mp hj with hm | hm
          · have hne : id ≠ j := fun e => hpid (e ▸ hm)
            simp only [statusOf]
            rw [mapGet_mapSet_ne _ _ _ _ hne]
            exact h.pendStatus j hm
          · rw [List.mem_singleton.mp hm]
            simp only [statusOf]
            rw [mapGet_mapSet_self]
            exact Or.inl rfl
        · show (s.pendingRetries ++ [id]).Nodup
          rw [List.nodup_append]
          exact ⟨h.pendNodup, List.nodup_singleton id,
            fun a ha hb => hpid (by rwa [List.mem_singleton.mp hb] at ha)⟩
        · intro j hj
          rcases List.mem_append.mp hj with hm | hm
          · exact h.pendEver j hm
          · rw [List.mem_singleton.mp hm]
            exact hidever
        · intro j hj
          simp only [] at hj
          rw [keys_mapSet_of_get _ _ _ hget] at hj
          exact h.activeEver j hj
        · intro j hj
          rcases List.mem_append.mp hj with hm | hm
          · exact h.pendSpawned j hm
          · rw [List.mem_singleton.mp hm]
            exact hidsp
        · intro hcr' j hstj
          by_cases hji : j = id
          · subst hji
            exact hidsp
          · have hne : id ≠ j := fun e => hji e.symm
            simp only [statusOf] at hstj
            rw [mapGet_mapSet_ne _ _ _ _ hne] at hstj
            exact h.runSpawned hcr' j hstj
      · simp only [closeStep, hget, hcfg]
        rw [if_neg hc0, if_neg hretry]
        exact engInv_del P s _ id h rfl rfl rfl rfl rfl rfl rfl

theorem engInv_procErr (P : Params) (s : EngineState) (id : String) (msg : String)
    (dl : Download) (h : EngInv P s) (hget : mapGet s.active id = some dl) :
    EngInv P (procErrStep P s id msg) := by
  simp only [procErrStep, hget]
  apply engInv_processQueue
  exact engInv_del P s _ id h rfl rfl rfl rfl rfl rfl rfl

theorem engInv_progress (P : Params) (s : EngineState) (id : String) (p : Nat)
    (size spd eta : Option String) (dl : Download) (h : EngInv P s)
    (hget : mapGet s.active id = some dl) :
    EngInv P (progressStep s id p size spd eta) := by
  simp only [progressStep, hget]
  refine engInv_replace P s _ id dl _ h hget ?_ ?_ rfl rfl rfl rfl rfl rfl rfl
  · rfl
  · rfl

/-! ## Every enabled event preserves the invariant -/

theorem engInv_step (P : Params) (s : EngineState) (e : Ev)
    (he : enabledB s e = true) (h : EngInv P s) : EngInv P (stepFn P s e) := by
  cases e with
  | submit id cfg =>
    simp only [enabledB, Bool.and_eq_true] at he
    obtain ⟨_, hfr⟩ := he
    have hfresh : id ∉ s.everIds := by
      intro hm
      rw [decide_eq_true hm] at hfr
      simp at hfr
    exact engInv_submit P s id cfg h hfresh
  | close id code lastError szb renameOk =>
    cases hget : mapGet s.active id with
    | none =>
      exfalso
      simp [enabledB, hget] at he
    | some dl =>
      simp only [enabledB, hget, Bool.and_eq_true] at he
      obtain ⟨hcrb, hproc, hstb⟩ := he
      have hst : dl.info.status = Status.downloading := by simpa using hstb
      have hcr : s.crashed = false := by revert hcrb; cases s.crashed <;> simp
      exact engInv_close P s id code lastError szb renameOk dl h hget hst hcr
  | procErr id msg =>
    cases hget : mapGet s.active id with
    | none =>
      exfalso
      simp [enabledB, hget] at he
    | some dl =>
      exact engInv_procErr P s id msg dl h hget
  | retryFire id =>
    simp only [enabledB, Bool.and_eq_true, decide_eq_true_eq] at he
    exact engInv_fire P s id h he.2
  | cancel body =>
    cases body with
    | none => exact h
    | some id =>
      cases hget : mapGet s.active id with
      | none =>
        show EngInv P (cancelStep s (some id)).2
        have heq : (cancelStep s (some id)).2 = s := by simp [cancelStep, hget]
        rw [heq]
        exact h
      | some dl =>
        show EngInv P (cancelStep s (some id)).2
        simp only [cancelStep, hget]
        exact engInv_del P s _ id h rfl rfl rfl rfl rfl rfl rfl
  | cancelAll =>
    show EngInv P (cancelAllStep s).2
    simp only [cancelAllStep]
    exact engInv_clear P s _ h rfl rfl rfl rfl rfl rfl
  | progressTick id p size spd eta =>
    cases hget : mapGet s.active id with
    | none =>
      show EngInv P (progressStep s id p size spd eta)
      have heq : progressStep s id p size spd eta = s := by simp [progressStep, hget]
      rw [heq]
      exact h
    | some dl =>
      exact engInv_progress P s id p size spd eta dl h hget

theorem engInv_reach (P : Params) {s t : EngineState} (hr : Reach P s t)
    (h : EngInv P s) : EngInv P t := by
  induction hr with
  | refl => exact h
  | tail e _ he ih => exact engInv_step P _ e he ih

/-! ## The restored startup state satisfies the invariant -/

theorem loadFold_inv (data : List Info) :
    ∀ acc : EngineState,
      acc.queue = [] → acc.pendingRetries = [] → acc.spawned = [] →
      acc.submitted = [] → acc.crashed = false →
      (∀ p ∈ acc.active, isRunning p.2 = false) →
      (∀ j ∈ acc.active.map (·.1), j ∈ acc.everIds) →
      (data.foldl loadOne acc).queue = [] ∧
      (data.foldl loadOne acc).pendingRetries = [] ∧
      (data.foldl loadOne acc).spawned = [] ∧
      (data.foldl loadOne acc).submitted = [] ∧
      (data.foldl loadOne acc).crashed = false ∧
      (∀ p ∈ (data.foldl loadOne acc).active, isRunning p.2 = false) ∧
      (∀ j ∈ (data.foldl loadOne acc).active.map (·.1), j ∈ (data.foldl loadOne acc).everIds) := by
  induction data with
  | nil =>
    intro acc h1 h2 h3 h4 h5 h6 h7
    exact ⟨h1, h2, h3, h4, h5, h6, h7⟩
  | cons info rest ih =>
    intro acc h1 h2 h3 h4 h5 h6 h7
    simp only [List.foldl_cons]
    refine ih (loadOne acc info) h1 h2 h3 h4 h5 ?_ ?_
    · intro p hp
      rcases mem_of_mem_mapSet hp with hm | hm
      · exact h6 p hm
      · rw [hm]
        have hr1 := (restoreInfo_not_running info).1
        have hr2 := (restoreInfo_not_running info).2
        simp [isRunning, hr1, hr2]
    · intro j hj
      show j ∈ acc.everIds ++ [(restoreInfo info).id]
      simp only [loadOne] at hj
      rcases (mem_keys_mapSet acc.active (restoreInfo info).id _ j).mp hj with hm | hm
      · exact List.mem_append_right _ (by simp [hm])
      · exact List.mem_append_left _ (h7 j hm)

theorem engInv_load (P : Params) (data : List Info) : EngInv P (loadStateFn data) := by
  obtain ⟨hq, hp, hsp, hsub, hcr, hact, hkeys⟩ :=
    loadFold_inv data initState rfl rfl rfl rfl rfl
      (by intro p hp; simp [initState] at hp)
      (by intro j hj; simp [initState] at hj)
  simp only [loadStateFn]
  refine
    { countLe := ?_
      queueStatus := fun j hj => absurd (hq ▸ hj) (List.not_mem_nil j)
      pendStatus := fun j hj => absurd (hp ▸ hj) (List.not_mem_nil j)
      queueNodup := by rw [hq]; exact List.nodup_nil
      pendNodup := by rw [hp]; exact List.nodup_nil
      queueEver := fun j hj => absurd (hq ▸ hj) (List.not_mem_nil j)
      pendEver := fun j hj => absurd (hp ▸ hj) (List.not_mem_nil j)
      activeEver := hkeys
      fifo := ⟨[], by rw [hsub, hq]; rfl, by rw [hsp]; exact List.nil_sublist _⟩
      queueUnspawned := fun j hj => absurd (hq ▸ hj) (List.not_mem_nil j)
      pendSpawned := fun j hj => absurd (hp ▸ hj) (List.not_mem_nil j)
      spawnedEver := fun j hj => absurd (hsp ▸ hj) (List.not_mem_nil j)
      runSpawned := ?_ }
  · show countRunning (List.foldl loadOne initState data).active ≤ P.maxConcurrent
    rw [countRunning_zero _ hact]
    exact Nat.zero_le _
  · intro _ j hstj
    cases hg : mapGet (List.foldl loadOne initState data).active j with
    | none =>
      rw [statusOf, hg] at hstj
      rcases hstj with hstj | hstj <;> cases hstj
    | some dl =>
      exfalso
      have hmem := hact (j, dl) (mapGet_some_mem hg)
      rw [statusOf, hg] at hstj
      rcases hstj with hstj | hstj
      · have hdl : dl.info.status = Status.downloading := by simpa using hstj
        simp [isRunning, hdl] at hmem
      · have hdl : dl.info.status = Status.retrying := by simpa using hstj
        simp [isRunning, hdl] at hmem

/-! ## A job absent from the table is never spawned -/

theorem processQueue_absent (P : Params) (id : String) (s : EngineState)
    (h0 : mapGet s.active id = none) :
    mapGet (processQueue P s).active id = none ∧
    (id ∈ (processQueue P s).spawned ↔ id ∈ s.spawned) := by
  refine processQueue_ind P
    (fun t => mapGet t.active id = none ∧ (id ∈ t.spawned ↔ id ∈ s.spawned))
    ?_ s ⟨h0, Iff.rfl⟩
  intro t j rest _ _ ht
  obtain ⟨m1, m2⟩ := ht
  by_cases hji : j = id
  · subst hji
    rw [startDownload_not_found { t with queue := rest } j m1]
    exact ⟨m1, m2⟩
  · refine ⟨?_, ?_⟩
    · rw [startDownload_mapGet_ne _ _ _ hji]
      exact m1
    · rcases startDownload_spawned_cases { t with queue := rest } j with hs | ⟨hs, _⟩
      · rw [hs]
        exact m2
      · rw [hs]
        simp only [List.mem_append, List.mem_singleton]
        constructor
        · rintro (hm | hm)
          · exact m2.mp hm
          · exact absurd hm.symm hji
        · intro hm
          exact Or.inl (m2.mpr hm)

theorem processQueue_absent3 (P : Params) (id : String) (s : EngineState)
    (h0 : mapGet s.active id = none) (h2 : id ∉ s.spawned) (h3 : id ∈ s.everIds) :
    mapGet (processQueue P s).active id = none ∧ id ∉ (processQueue P s).spawned ∧
    id ∈ (processQueue P s).everIds := by
  obtain ⟨a1, a2⟩ := processQueue_absent P id s h0
  obtain ⟨_, _, f3, _⟩ := processQueue_frame P s
  exact ⟨a1, fun hm => h2 (a2.mp hm), by rw [f3]; exact h3⟩

theorem step_absent (P : Params) (id : String) (u : EngineState) (e : Ev)
    (he : enabledB u e = true) (h1 : mapGet u.active id = none)
    (h2 : id ∉ u.spawned) (h3 : id ∈ u.everIds) :
    mapGet (stepFn P u e).active id = none ∧ id ∉ (stepFn P u e).spawned ∧
    id ∈ (stepFn P u e).everIds := by
  cases e with
  | submit j cfg =>
    simp only [enabledB, Bool.and_eq_true] at he
    obtain ⟨_, hfr⟩ := he
    have hfresh : j ∉ u.everIds := by
      intro hm
      rw [decide_eq_true hm] at hfr
      simp at hfr
    have hne : j ≠ id := fun e => hfresh (e ▸ h3)
    show mapGet (submitStep P u j cfg).active id = none ∧
      id ∉ (submitStep P u j cfg).spawned ∧ id ∈ (submitStep P u j cfg).everIds
    show mapGet (processQueue P
      { u with
          active := mapSet u.active j
            { info := newInfo j cfg, config := some cfg, hasProc := false, retryCount := 0 },
          queue := u.queue ++ [j],
          submitted := u.submitted ++ [j],
          everIds := u.everIds ++ [j],
          broadcasts := u.broadcasts ++ [({ btype := "update", dl := newInfo j cfg } : BMsg)] }).active
        id = none ∧ _ ∧ _
    have g1 : mapGet (mapSet u.active j
        { info := newInfo j cfg, config := some cfg, hasProc := false, retryCount := 0 }) id
        = none := by
      rw [mapGet_mapSet_ne _ _ _ _ hne]
      exact h1
    exact processQueue_absent3 P id _ g1 h2 (List.mem_append_left _ h3)
  | close j code lastError szb renameOk =>
    cases hget : mapGet u.active j with
    | none =>
      exfalso
      simp [enabledB, hget] at he
    | some dl =>
      have hne : j ≠ id := by
        intro e
        rw [e, h1] at hget
        cases hget
      show mapGet (closeStep P u j code lastError szb renameOk).active id = none ∧
        id ∉ (closeStep P u j code lastError szb renameOk).spawned ∧
        id ∈ (closeStep P u j code lastError szb renameOk).everIds
      cases hcfg : dl.config with
      | none =>
        have heq : closeStep P u j code lastError szb renameOk = u := by
          simp [closeStep, hget, hcfg]
        rw [heq]
        exact ⟨h1, h2, h3⟩
      | some cfg =>
        by_cases hc0 : code = some 0
        · simp only [closeStep, hget, hcfg]
          rw [if_pos hc0]
          have g1 : mapGet (mapDel u.active j) id = none := by
            rw [mapGet_mapDel_ne _ _ _ hne]
            exact h1
          exact processQueue_absent3 P id _ g1 h2 h3
        · by_cases hretry :
            (decide (dl.retryCount < P.retryAttempts) && transientSig lastError code) = true
          · simp only [closeStep, hget, hcfg]
            rw [if_neg hc0, if_pos hretry]
            refine ⟨?_, h2, h3⟩
            rw [mapGet_mapSet_ne _ _ _ _ hne]
            exact h1
          · simp only [closeStep, hget, hcfg]
            rw [if_neg hc0, if_neg hretry]
            refine ⟨?_, h2, h3⟩
            rw [mapGet_mapDel_ne _ _ _ hne]
            exact h1
  | procErr j msg =>
    cases hget : mapGet u.active j with
    | none =>
      exfalso
      simp [enabledB, hget] at he
    | some dl =>
      have hne : j ≠ id := by
        intro e
        rw [e, h1] at hget
        cases hget
      show mapGet (procErrStep P u j msg).active id = none ∧
        id ∉ (procErrStep P u j msg).spawned ∧ id ∈ (procErrStep P u j msg).everIds
      simp only [procErrStep, hget]
      have g1 : mapGet (mapDel u.active j) id = none := by
        rw [mapGet_mapDel_ne _ _ _ hne]
        exact h1
      exact processQueue_absent3 P id _ g1 h2 h3
  | retryFire j =>
    have hrf : retryFireStep u j =
        startDownload { u with pendingRetries := u.pendingRetries.erase j } j := rfl
    show mapGet (retryFireStep u j).active id = none ∧
      id ∉ (retryFireStep u j).spawned ∧ id ∈ (retryFireStep u j).everIds
    rw [hrf]
    by_cases hji : j = id
    · subst hji
      rw [startDownload_not_found { u with pendingRetries := u.pendingRetries.erase j } j h1]
      exact ⟨h1, h2, h3⟩
    · refine ⟨?_, ?_, ?_⟩
      · rw [startDownload_mapGet_ne _ _ _ hji]
        exact h1
      · rcases startDownload_spawned_cases
          { u with pendingRetries := u.pendingRetries.erase j } j with hs | ⟨hs, _⟩
        · rw [hs]
          exact h2
        · rw [hs]
          simp only [List.mem_append, List.mem_singleton]
          rintro (hm | hm)
          · exact h2 hm
          · exact hji hm.symm
      · rw [(startDownload_frame { u with pendingRetries := u.pendingRetries.erase j } j).2.2.2.1]
        exact h3
  | cancel body =>
    cases body with
    | none => exact ⟨h1, h2, h3⟩
    | some j =>
      show mapGet (cancelStep u (some j)).2.active id = none ∧
        id ∉ (cancelStep u (some j)).2.spawned ∧ id ∈ (cancelStep u (some j)).2.everIds
      cases hget : mapGet u.active j with
      | none =>
        have heq : (cancelStep u (some j)).2 = u := by simp [cancelStep, hget]
        rw [heq]
        exact ⟨h1, h2, h3⟩
      | some dl =>
        have hne : j ≠ id := by
          intro e
          rw [e, h1] at hget
          cases hget
        simp only [cancelStep, hget]
        refine ⟨?_, h2, h3⟩
        rw [mapGet_mapDel_ne _ _ _ hne]
        exact h1
  | cancelAll =>
    exact ⟨rfl, h2, h3⟩
  | progressTick j p size spd eta =>
    cases hget : mapGet u.active j with
    | none =>
      show mapGet (progressStep u j p size spd eta).active id = none ∧
        id ∉ (progressStep u j p size spd eta).spawned ∧
        id ∈ (progressStep u j p size spd eta).everIds
      have heq : progressStep u j p size spd eta = u := by simp [progressStep, hget]
      rw [heq]
      exact ⟨h1, h2, h3⟩
    | some dl =>
      have hne : j ≠ id := by
        intro e
        rw [e, h1] at hget
        cases hget
      show mapGet (progressStep u j p size spd eta).active id = none ∧
        id ∉ (progressStep u j p size spd eta).spawned ∧
        id ∈ (progressStep u j p size spd eta).everIds
      simp only [progressStep, hget]
      refine ⟨?_, h2, h3⟩
      rw [mapGet_mapSet_ne _ _ _ _ hne]
      exact h1

theorem stale_frozen (P : Params) (id : String) {s t : EngineState} (hr : Reach P s t)
    (h1 : mapGet s.active id = none) (h2 : id ∉ s.spawned) (h3 : id ∈ s.everIds) :
    mapGet t.active id = none ∧ id ∉ t.spawned ∧ id ∈ t.everIds := by
  induction hr with
  | refl => exact ⟨h1, h2, h3⟩
  | tail e _ he ih => exact step_absent P id _ e he ih.1 ih.2.1 ih.2.2

/-! ## A job that is not queued, armed, or running is never spawned -/

theorem processQueue_neverRun (P : Params) (id : String) (s : EngineState)
    (h : NeverRun s id) : NeverRun (processQueue P s) id := by
  obtain ⟨hq, hp, hsp, hev, hd, hr⟩ := h
  obtain ⟨n1, n2, n3⟩ := processQueue_not_queued P id s hq
  obtain ⟨f1, _, f3, _⟩ := processQueue_frame P s
  refine ⟨n1, by rw [f1]; exact hp, fun hm => hsp (n3.mp hm), by rw [f3]; exact hev, ?_, ?_⟩
  · show statusOf (processQueue P s) id ≠ some Status.downloading
    rw [statusOf, n2]
    exact hd
  · show statusOf (processQueue P s) id ≠ some Status.retrying
    rw [statusOf, n2]
    exact hr

theorem step_neverRun (P : Params) (id : String) (u : EngineState) (e : Ev)
    (he : enabledB u e = true) (h : NeverRun u id) : NeverRun (stepFn P u e) id := by
  obtain ⟨hq, hp, hsp, hev, hd, hr⟩ := h
  cases e with
  | submit j cfg =>
    simp only [enabledB, Bool.and_eq_true] at he
    obtain ⟨_, hfr⟩ := he
    have hfresh : j ∉ u.everIds := by
      intro hm
      rw [decide_eq_true hm] at hfr
      simp at hfr
    have hne : j ≠ id := fun e => hfresh (e ▸ hev)
    show NeverRun (processQueue P
      { u with
          active := mapSet u.active j
            { info := newInfo j cfg, config := some cfg, hasProc := false, retryCount := 0 },
          queue := u.queue ++ [j],
          submitted := u.submitted ++ [j],
          everIds := u.everIds ++ [j],
          broadcasts := u.broadcasts ++ [({ btype := "update", dl := newInfo j cfg } : BMsg)] }) id
    apply processQueue_neverRun
    have hframe : mapGet (mapSet u.active j
        { info := newInfo j cfg, config := some cfg, hasProc := false, retryCount := 0 }) id
        = mapGet u.active id := mapGet_mapSet_ne _ _ _ _ hne
    refine ⟨?_, hp, hsp, List.mem_append_left _ hev, ?_, ?_⟩
    · intro hm
      rcases List.mem_append.mp hm with hm | hm
      · exact hq hm
      · exact hne (List.mem_singleton.mp hm).symm
    · show ((mapGet (mapSet u.active j
        { info := newInfo j cfg, config := some cfg, hasProc := false, retryCount := 0 }) id).map
        (fun dl => dl.info.status)) ≠ some Status.downloading
      rw [hframe]
      exact hd
    · show ((mapGet (mapSet u.active j
        { info := newInfo j cfg, config := some cfg, hasProc := false, retryCount := 0 }) id).map
        (fun dl => dl.info.status)) ≠ some Status.retrying
      rw [hframe]
      exact hr
  | close j code lastError szb renameOk =>
    cases hget : mapGet u.active j with
    | none =>
      exfalso
      simp [enabledB, hget] at he
    | some dl =>
      simp only [enabledB, hget, Bool.and_eq_true] at he
      obtain ⟨_, _, hstb⟩ := he
      have hst : dl.info.status = Status.downloading := by simpa using hstb
      have hne : j ≠ id := by
        intro e
        subst e
        exact hd (by rw [statusOf_eq_some hget, hst])
      show NeverRun (closeStep P u j code lastError szb renameOk) id
      cases hcfg : dl.config with
      | none =>
        have heq : closeStep P u j code lastError szb renameOk = u := by
          simp [closeStep, hget, hcfg]
        rw [heq]
        exact ⟨hq, hp, hsp, hev, hd, hr⟩
      | some cfg =>
        by_cases hc0 : code = some 0
        · simp only [closeStep, hget, hcfg]
          rw [if_pos hc0]
          apply processQueue_neverRun
          have hframe : mapGet (mapDel u.active j) id = mapGet u.active id :=
            mapGet_mapDel_ne _ _ _ hne
          refine ⟨hq, hp, hsp, hev, ?_, ?_⟩
          · show ((mapGet (mapDel u.active j) id).map (fun dl => dl.info.status))
              ≠ some Status.downloading
            rw [hframe]
            exact hd
          · show ((mapGet (mapDel u.active j) id).map (fun dl => dl.info.status))
              ≠ some Status.retrying
            rw [hframe]
            exact hr
        · by_cases hretry :
            (decide (dl.retryCount < P.retryAttempts) && transientSig lastError code) = true
          · simp only [closeStep, hget, hcfg]
            rw [if_neg hc0, if_pos hretry]
            refine ⟨hq, ?_, hsp, hev, ?_, ?_⟩
            · intro hm
              rcases List.mem_append.mp hm with hm | hm
              · exact hp hm
              · exact hne (List.mem_singleton.mp hm).symm
            · intro hcontra
              apply hd
              simp only [statusOf] at hcontra
              rw [mapGet_mapSet_ne _ _ _ _ hne] at hcontra
              exact hcontra
            · intro hcontra
              apply hr
              simp only [statusOf] at hcontra
              rw [mapGet_mapSet_ne _ _ _ _ hne] at hcontra
              exact hcontra
          · simp only [closeStep, hget, hcfg]
            rw [if_neg hc0, if_neg hretry]
            have hframe : mapGet (mapDel u.active j) id = mapGet u.active id :=
              mapGet_mapDel_ne _ _ _ hne
            refine ⟨hq, hp, hsp, hev, ?_, ?_⟩
            · show ((mapGet (mapDel u.active j) id).map (fun dl => dl.info.status))
                ≠ some Status.downloading
              rw [hframe]
              exact hd
            · show ((mapGet (mapDel u.active j) id).map (fun dl => dl.info.status))
                ≠ some Status.retrying
              rw [hframe]
              exact hr
  | procErr j msg =>
    cases hget : mapGet u.active j with
    | none =>
      exfalso
      simp [enabledB, hget] at he
    | some dl =>
      simp only [enabledB, hget, Bool.and_eq_true] at he
      obtain ⟨_, _, hstb⟩ := he
      have hst : dl.info.status = Status.downloading := by simpa using hstb
      have hne : j ≠ id := by
        intro e
        subst e
        exact hd (by rw [statusOf_eq_some hget, hst])
      show NeverRun (procErrStep P u j msg) id
      simp only [procErrStep, hget]
      apply processQueue_neverRun
      have hframe : mapGet (mapDel u.active j) id = mapGet u.active id :=
        mapGet_mapDel_ne _ _ _ hne
      refine ⟨hq, hp, hsp, hev, ?_, ?_⟩
      · show ((mapGet (mapDel u.active j) id).map (fun dl => dl.info.status))
          ≠ some Status.downloading
        rw [hframe]
        exact hd
      · show ((mapGet (mapDel u.active j) id).map (fun dl => dl.info.status))
          ≠ some Status.retrying
        rw [hframe]
        exact hr
  | retryFire j =>
    simp only [enabledB, Bool.and_eq_true, decide_eq_true_eq] at he
    have hne : j ≠ id := fun e => hp (e ▸ he.2)
    have hrf : retryFireStep u j =
        startDownload { u with pendingRetries := u.pendingRetries.erase j } j := rfl
    show NeverRun (retryFireStep u j) id
    rw [hrf]
    have hperase : id ∉ u.pendingRetries.erase j :=
      fun hm => hp (List.mem_of_mem_erase hm)
    refine ⟨?_, ?_, ?_, ?_, ?_, ?_⟩
    · rw [(startDownload_frame _ _).1]
      exact hq
    · rw [(startDownload_frame _ _).2.1]
      exact hperase
    · rcases startDownload_spawned_cases
        { u with pendingRetries := u.pendingRetries.erase j } j with hs | ⟨hs, _⟩
      · rw [hs]
        exact hsp
      · rw [hs]
        simp only [List.mem_append, List.mem_singleton]
        rintro (hm | hm)
        · exact hsp hm
        · exact hne hm.symm
    · rw [(startDownload_frame _ _).2.2.2.1]
      exact hev
    · show statusOf _ id ≠ some Status.downloading
      rw [statusOf, startDownload_mapGet_ne _ _ _ hne]
      exact hd
    · show statusOf _ id ≠ some Status.retrying
      rw [statusOf, startDownload_mapGet_ne _ _ _ hne]
      exact hr
  | cancel body =>
    cases body with
    | none => exact ⟨hq, hp, hsp, hev, hd, hr⟩
    | some j =>
      show NeverRun (cancelStep u (some j)).2 id
      cases hget : mapGet u.active j with
      | none =>
        have heq : (cancelStep u (some j)).2 = u := by simp [cancelStep, hget]
        rw [heq]
        exact ⟨hq, hp, hsp, hev, hd, hr⟩
      | some dl =>
        simp only [cancelStep, hget]
        refine ⟨hq, hp, hsp, hev, ?_, ?_⟩
        · show ((mapGet (mapDel u.active j) id).map (fun dl => dl.info.status))
            ≠ some Status.downloading
          rcases mapGet_mapDel_cases u.active j id with hc | hc
          · rw [hc]
            simp
          · rw [hc]
            exact hd
        · show ((mapGet (mapDel u.active j) id).map (fun dl => dl.info.status))
            ≠ some Status.retrying
          rcases mapGet_mapDel_cases u.active j id with hc | hc
          · rw [hc]
            simp
          · rw [hc]
            exact hr
  | cancelAll =>
    show NeverRun (cancelAllStep u).2 id
    simp only [cancelAllStep]
    exact ⟨hq, hp, hsp, hev, by simp [statusOf, mapGet], by simp [statusOf, mapGet]⟩
  | progressTick j p size spd eta =>
    cases hget : mapGet u.active j with
    | none =>
      show NeverRun (progressStep u j p size spd eta) id
      have heq : progressStep u j p size spd eta = u := by simp [progressStep, hget]
      rw [heq]
      exact ⟨hq, hp, hsp, hev, hd, hr⟩
    | some dl =>
      show NeverRun (progressStep u j p size spd eta) id
      simp only [progressStep, hget]
      refine ⟨hq, hp, hsp, hev, ?_, ?_⟩
      · intro hcontra
        apply hd
        simp only [statusOf] at hcontra
        by_cases hji : j = id
        · subst hji
          rw [mapGet_mapSet_self] at hcontra
          rw [statusOf, hget]
          exact hcontra
        · rw [mapGet_mapSet_ne _ _ _ _ hji] at hcontra
          rw [statusOf]
          exact hcontra
      · intro hcontra
        apply hr
        simp only [statusOf] at hcontra
        by_cases hji : j = id
        · subst hji
          rw [mapGet_mapSet_self] at hcontra
          rw [statusOf, hget]
          exact hcontra
        · rw [mapGet_mapSet_ne _ _ _ _ hji] at hcontra
          rw [statusOf]
          exact hcontra

theorem neverRun_reach (P : Params) (id : String) {s t : EngineState}
    (hr : Reach P s t) (h : NeverRun s id) : NeverRun t id := by
  induction hr with
  | refl => exact h
  | tail e _ he ih => exact step_neverRun P id _ e he ih

/-! ## The claims -/

/-- C1: at every reachable state of the engine (started from any restored
snapshot), the number of jobs in the active table whose status is
`downloading` or `retrying` is at most `MAX_CONCURRENT_DOWNLOADS`:
submission creates jobs `queued`, and `processQueue` starts the queue head
only while the running count is strictly below the limit. -/
theorem concurrency_bound (P : Params) (data : List Info) (s : EngineState)
    (h : Reach P (loadStateFn data) s) : runningCount s ≤ P.maxConcurrent :=
  (engInv_reach P h (engInv_load P data)).countLe

theorem concurrency_bound_witness : runningCount c1s2 ≤ c1P.maxConcurrent :=
  concurrency_bound c1P [] c1s2
    (Reach.tail (Ev.submit "a2" c1Cfg)
      (Reach.tail (Ev.submit "a1" c1Cfg) (Reach.refl _) (by decide))
      (by decide))

/-- C2 (code bug evidence): after a worker exit with a non-transient,
non-zero code, and likewise after a single-job cancel, the queued job `B` is
NOT promoted although a concurrency slot is free and the queue is non-empty
— the close handler's terminal-error branch and the `/cancel` route contain
no `processQueue()` call.  A successful exit, by contrast, does promote. -/
theorem promotion_gap_on_error_and_cancel :
    enabledB (loadStateFn []) (Ev.submit "A" c2CfgA) = true ∧
    enabledB c2sA (Ev.submit "B" c2CfgB) = true ∧
    enabledB c2sB (Ev.close "A" (some 1) "boom" none true) = true ∧
    enabledB c2sB (Ev.cancel (some "A")) = true ∧
    runningCount c2err = 0 ∧ c2err.queue = ["B"] ∧
    statusOf c2err "B" = some Status.queued ∧ c2err.spawned = ["A"] ∧
    runningCount c2can = 0 ∧ c2can.queue = ["B"] ∧
    statusOf c2can "B" = some Status.queued ∧ c2can.spawned = ["A"] ∧
    c2ok.spawned = ["A", "B"] ∧ statusOf c2ok "B" = some Status.downloading := by
  decide

/-- C3: a non-zero worker exit is retried exactly when `retryCount` is
strictly below `RETRY_ATTEMPTS` and the collected error text or exit code
matches the transient signature set; each retry increments `retryCount`,
sets status `retrying` and arms the timer without touching the queue.  With
`RETRY_ATTEMPTS = 2` a video job whose three attempts all fail with
transient signatures spawns a worker exactly three times and then leaves the
table with a final `error` broadcast. -/
theorem retry_policy_iff_and_three_attempts (P : Params) (s : EngineState)
    (id : String) (dl : Download) (cfg : Config) (code : Option Int)
    (lastError : String) (szb : Option Nat) (renameOk : Bool)
    (hget : mapGet s.active id = some dl) (hcfg : dl.config = some cfg)
    (hnz : code ≠ some 0) :
    ((statusOf (closeStep P s id code lastError szb renameOk) id = some Status.retrying ∧
      (∃ dl', mapGet (closeStep P s id code lastError szb renameOk).active id = some dl' ∧
        dl'.retryCount = dl.retryCount + 1) ∧
      id ∈ (closeStep P s id code lastError szb renameOk).pendingRetries ∧
      (closeStep P s id code lastError szb renameOk).queue = s.queue) ↔
      (dl.retryCount < P.retryAttempts ∧ transientSig lastError code = true)) ∧
    (enabledB (loadStateFn []) (Ev.submit "J" c3Cfg) = true ∧
     enabledB c3s1 (Ev.close "J" (some 1) "Connection reset by peer" none true) = true ∧
     enabledB c3s2 (Ev.retryFire "J") = true ∧
     enabledB c3s3 (Ev.close "J" (some 1) "timeout while reading" none true) = true ∧
     enabledB c3s4 (Ev.retryFire "J") = true ∧
     enabledB c3s5 (Ev.close "J" (some 1) "SSL handshake failed" none true) = true ∧
     statusOf c3s2 "J" = some Status.retrying ∧
     statusOf c3s4 "J" = some Status.retrying ∧
     c3s6.spawned = ["J", "J", "J"] ∧
     mapGet c3s6.active "J" = none ∧
     (c3s6.broadcasts.getLast?.map (fun b => b.dl.status)) = some Status.error) := by
  constructor
  · simp only [closeStep, hget, hcfg]
    rw [if_neg hnz]
    by_cases hretry :
        (decide (dl.retryCount < P.retryAttempts) && transientSig lastError code) = true
    · rw [if_pos hretry]
      rw [Bool.and_eq_true, decide_eq_true_eq] at hretry
      constructor
      · intro _
        exact hretry
      · intro _
        refine ⟨?_, ⟨_, mapGet_mapSet_self _ _ _, rfl⟩, ?_, rfl⟩
        · simp only [statusOf]
          rw [mapGet_mapSet_self]
          rfl
        · exact List.mem_append_right _ (List.mem_singleton.mpr rfl)
    · rw [if_neg hretry]
      apply iff_of_false
      · rintro ⟨hst, _, _, _⟩
        simp only [statusOf] at hst
        rw [mapGet_mapDel_self] at hst
        cases hst
      · intro hc
        apply hretry
        rw [Bool.and_eq_true, decide_eq_true_eq]
        exact hc
  · decide

theorem retry_policy_witness :
    c3s6.spawned = ["J", "J", "J"] ∧ mapGet c3s6.active "J" = none ∧
    (c3s6.broadcasts.getLast?.map (fun b => b.dl.status)) = some Status.error := by
  have h := retry_policy_iff_and_three_attempts c3wP c3wS "W" c3wDl c3wCfg (some 1)
    "Connection lost" none true (by decide) (by decide) (by decide)
  obtain ⟨_, hb⟩ := h
  obtain ⟨_, _, _, _, _, _, _, _, h9, h10, h11⟩ := hb
  exact ⟨h9, h10, h11⟩

/-- C4: restoring persisted state rewrites every loaded job whose saved
status is `downloading` or `retrying` to `interrupted` with the synthetic
error `Arrêt du serveur`, keeps every other saved status verbatim, restores
an empty queue, no armed retry timers and no spawned workers, and a restored
job id is never handed to a worker in any subsequent reachable state. -/
theorem restore_interrupts (P : Params) (data : List Info) (info : Info) :
    ((info.status = Status.downloading ∨ info.status = Status.retrying) →
      (restoreInfo info).status = Status.interrupted ∧
      (restoreInfo info).error = some "Arrêt du serveur") ∧
    ((info.status ≠ Status.downloading ∧ info.status ≠ Status.retrying) →
      restoreInfo info = info) ∧
    (loadStateFn data).spawned = [] ∧ (loadStateFn data).queue = [] ∧
    (loadStateFn data).pendingRetries = [] ∧
    (∀ id t, id ∈ (loadStateFn data).everIds → Reach P (loadStateFn data) t →
      id ∉ t.spawned) := by
  obtain ⟨hq, hp, hsp, hsub, hcr, hact, hkeys⟩ :=
    loadFold_inv data initState rfl rfl rfl rfl rfl
      (by intro p hp; simp [initState] at hp)
      (by intro j hj; simp [initState] at hj)
  refine ⟨?_, ?_, hsp, hq, hp, ?_⟩
  · intro hcond
    unfold restoreInfo
    rw [if_pos hcond]
    exact ⟨rfl, rfl⟩
  · intro hcond
    unfold restoreInfo
    rw [if_neg (by rintro (h1 | h2); exact hcond.1 h1; exact hcond.2 h2)]
  · intro id t hid hrt
    have base : NeverRun (loadStateFn data) id := by
      refine ⟨?_, ?_, ?_, hid, ?_, ?_⟩
      · intro hm
        rw [show (loadStateFn data).queue = [] from hq] at hm
        cases hm
      · intro hm
        rw [show (loadStateFn data).pendingRetries = [] from hp] at hm
        cases hm
      · intro hm
        rw [show (loadStateFn data).spawned = [] from hsp] at hm
        cases hm
      · intro hcontra
        cases hg : mapGet (loadStateFn data).active id with
        | none => rw [statusOf, hg] at hcontra; cases hcontra
        | some dl =>
          have hmem := hact (id, dl) (mapGet_some_mem hg)
          rw [statusOf, hg] at hcontra
          have hdl : dl.info.status = Status.downloading := by simpa using hcontra
          simp [isRunning, hdl] at hmem
      · intro hcontra
        cases hg : mapGet (loadStateFn data).active id with
        | none => rw [statusOf, hg] at hcontra; cases hcontra
        | some dl =>
          have hmem := hact (id, dl) (mapGet_some_mem hg)
          rw [statusOf, hg] at hcontra
          have hdl : dl.info.status = Status.retrying := by simpa using hcontra
          simp [isRunning, hdl] at hmem
    exact (neverRun_reach P id hrt base).2.2.1

theorem restore_interrupts_witness :
    ((restoreInfo c4Info).status = Status.interrupted ∧
      (restoreInfo c4Info).error = some "Arrêt du serveur") ∧
    "r" ∉ (loadStateFn [c4Info]).spawned := by
  have h := restore_interrupts c4P [c4Info] c4Info
  exact ⟨h.1 (Or.inl rfl),
    h.2.2.2.2.2 "r" (loadStateFn [c4Info]) (by decide) (Reach.refl _)⟩

/-- C5: queue order is FIFO — each submission appends its id to the queue
tail and promotion always removes the queue head, so in every reachable
state the order of first worker starts is a subsequence of the submission
order; in particular three submissions A, B, C under `MaxConcurrent = 1`
start their workers in exactly that order. -/
theorem fifo_start_order (P : Params) (data : List Info) (s : EngineState)
    (h : Reach P (loadStateFn data) s) :
    List.Sublist (firsts s.spawned) s.submitted := by
  have hi := engInv_reach P h (engInv_load P data)
  obtain ⟨done, hdone, hfs⟩ := hi.fifo
  rw [hdone]
  exact hfs.trans (List.sublist_append_left done s.queue)

theorem fifo_start_order_witness :
    List.Sublist (firsts c5s5.spawned) c5s5.submitted ∧
    c5s5.spawned = ["A", "B", "C"] ∧ c5s5.submitted = ["A", "B", "C"] := by
  refine ⟨fifo_start_order c5P [] c5s5 ?_, by decide, by decide⟩
  exact Reach.tail (Ev.close "B" (some 0) "" none true)
    (Reach.tail (Ev.close "A" (some 0) "" none true)
      (Reach.tail (Ev.submit "C" c5CfgC)
        (Reach.tail (Ev.submit "B" c5CfgB)
          (Reach.tail (Ev.submit "A" c5CfgA) (Reach.refl _) (by decide))
          (by decide))
        (by decide))
      (by decide))
    (by decide)

/-- C6: for every job whose worker exits with code 0, the close handler
appends a history record with status `completed`, progress 100 and a set
`completedAt` timestamp, and removes the job from the active table —
whatever the last parsed progress value in the job record was. -/
theorem exit_zero_completes (P : Params) (s : EngineState) (id : String)
    (dl : Download) (cfg : Config) (lastError : String) (szb : Option Nat)
    (renameOk : Bool) (hget : mapGet s.active id = some dl)
    (hcfg : dl.config = some cfg) :
    ∃ fin : Info,
      (closeStep P s id (some 0) lastError szb renameOk).history = s.history ++ [fin] ∧
      fin.status = Status.completed ∧ fin.progress = 100 ∧
      fin.completedAt = some s.time ∧
      mapGet (closeStep P s id (some 0) lastError szb renameOk).active id = none := by
  simp only [closeStep, hget, hcfg]
  rw [if_pos trivial]
  exact ⟨_, (processQueue_frame P _).2.2.2, rfl, rfl, rfl,
    (processQueue_absent P id _ (mapGet_mapDel_self s.active id)).1⟩

theorem exit_zero_completes_witness :
    ∃ fin : Info,
      (closeStep c6P c6s "X" (some 0) "" none true).history = c6s.history ++ [fin] ∧
      fin.status = Status.completed ∧ fin.progress = 100 ∧
      fin.completedAt = some c6s.time ∧
      mapGet (closeStep c6P c6s "X" (some 0) "" none true).active "X" = none :=
  exit_zero_completes c6P c6s "X" c6dl c6Cfg "" none true (by decide) (by decide)

/-- C7 (amended): cancel-all transitions every job of the active table to
`cancelled` (broadcasting each), clears the table and returns the table
size as the affected count, but it does NOT drain `downloadQueue` — the
stale queued ids remain; nevertheless a queued-but-never-started job never
spawns a worker afterwards, because promoting a stale id finds no table
entry and is skipped. -/
theorem cancel_all_amended (P : Params) (data : List Info) (s : EngineState)
    (h : Reach P (loadStateFn data) s) :
    (cancelAllStep s).1 = s.active.length ∧
    (cancelAllStep s).2.active = [] ∧
    (cancelAllStep s).2.queue = s.queue ∧
    (cancelAllStep s).2.broadcasts = s.broadcasts ++
      (s.active.map (fun p => { p.2.info with status := Status.cancelled })).map
        (fun i => ({ btype := "status-change", dl := i } : BMsg)) ∧
    (∀ id, id ∈ s.queue → ∀ t, Reach P (cancelAllStep s).2 t → id ∉ t.spawned) := by
  have hi := engInv_reach P h (engInv_load P data)
  refine ⟨rfl, rfl, rfl, rfl, ?_⟩
  intro id hidq t hrt
  have h2 : id ∉ (cancelAllStep s).2.spawned := hi.queueUnspawned id hidq
  have h3 : id ∈ (cancelAllStep s).2.everIds := hi.queueEver id hidq
  exact (stale_frozen P id hrt rfl h2 h3).2.1

theorem cancel_all_amended_witness :
    (cancelAllStep c7sB).1 = c7sB.active.length ∧
    (cancelAllStep c7sB).2.active = [] ∧
    "B" ∉ (cancelAllStep c7sB).2.spawned := by
  have h := cancel_all_amended c7P [] c7sB
    (Reach.tail (Ev.submit "B" c7CfgB)
      (Reach.tail (Ev.submit "A" c7CfgA) (Reach.refl _) (by decide))
      (by decide))
  exact ⟨h.1, h.2.1, h.2.2.2.2 "B" (by decide) (cancelAllStep c7sB).2 (Reach.refl _)⟩

/-- C7 (counterexample to the claim as stated): after cancel-all on a state
with the queued job `B`, the pending queue is NOT drained — it still
contains `B`. -/
theorem cancel_all_queue_not_drained :
    (cancelAllStep c7sB).2.queue = ["B"] ∧ ("B" :: ([] : List String)) ≠ [] := by
  decide

/-- C8: artifact retrieval is at-most-once — for a stored artifact, the
first request streams it and, once fully delivered, unlinks it from the
downloads directory; a second request for the same path answers
"Fichier introuvable" and leaves storage unchanged. -/
theorem transfer_at_most_once (files : List String) (p : String)
    (hmem : p ∈ files) (hnd : files.Nodup) :
    (transferStep files p true).1 = TransferOutcome.delivered ∧
    p ∉ (transferStep files p true).2 ∧
    (∀ dOk, transferStep (transferStep files p true).2 p dOk =
      (TransferOutcome.notFound, (transferStep files p true).2)) := by
  have h1 : (transferStep files p true).2 = files.erase p := by
    simp [transferStep, hmem]
  have hne : p ∉ files.erase p := fun hm => by
    exact absurd ((hnd.mem_erase_iff).mp hm).1 (by simp)
  refine ⟨by simp [transferStep, hmem], by rw [h1]; exact hne, ?_⟩
  intro dOk
  rw [h1]
  simp [transferStep, hne]

theorem transfer_at_most_once_witness :
    (transferStep ["x.bin", "y.bin"] "x.bin" true).1 = TransferOutcome.delivered ∧
    "x.bin" ∉ (transferStep ["x.bin", "y.bin"] "x.bin" true).2 ∧
    (∀ dOk, transferStep (transferStep ["x.bin", "y.bin"] "x.bin" true).2 "x.bin" dOk =
      (TransferOutcome.notFound, (transferStep ["x.bin", "y.bin"] "x.bin" true).2)) :=
  transfer_at_most_once ["x.bin", "y.bin"] "x.bin" (by decide) (by decide)

/-- C9 (code bug evidence): the `launch` of server.js forces
1 connection / 1 split exactly when the URL carries a YouTube marker, the
attempt is a retry, or single-segment mode was requested — for a plain CDN
URL on a retry it yields (1, 1); the current revision's `startDownload`
(part_001 line 675) instead computes the connection count from the
`connections` identifier alone — out of scope there — and with the intended
default it yields 16 for that same retry, ignoring retry and
single-segment. -/
theorem aria2_parallelism_divergence :
    (∀ isYouTube isRetry singleSegment : Bool,
      (launchAria2Parallel isYouTube isRetry singleSegment = (1, 1) ↔
        (isYouTube || isRetry || singleSegment) = true) ∧
      (launchAria2Parallel isYouTube isRetry singleSegment = (16, 16) ↔
        (isYouTube || isRetry || singleSegment) = false)) ∧
    launchIsYouTube "https://cdn.example.net/file.bin" = false ∧
    launchAria2Parallel (launchIsYouTube "https://cdn.example.net/file.bin") true false
      = (1, 1) ∧
    part001AriaConns none false = 16 ∧ part001AriaConns none false ≠ 1 := by
  exact ⟨by decide, by decide, by decide, by decide, by decide⟩

/-- C10: a single-job cancel is atomic on error — a request without an id
answers 400 ("ID manquant") and an unknown id answers 404
("Téléchargement introuvable"), and in both cases the returned state is the
input state itself: job table, queue, every job record and the broadcast
trace are untouched. -/
theorem cancel_atomic_on_error (s : EngineState) :
    cancelStep s none = (CancelRes.badRequest, s) ∧
    (∀ id, mapGet s.active id = none →
      cancelStep s (some id) = (CancelRes.notFound, s)) := by
  constructor
  · rfl
  · intro id hget
    simp [cancelStep, hget]

theorem cancel_atomic_on_error_witness :
    cancelStep c10s none = (CancelRes.badRequest, c10s) ∧
    cancelStep c10s (some "zzz") = (CancelRes.notFound, c10s) := by
  have h := cancel_atomic_on_error c10s
  exact ⟨h.1, h.2 "zzz" (by decide)⟩

end WgetVerify
